import Mathlib

/-
Verification development for the btcmap-admin lint/maintenance engine.

The definitions below are a shallow embedding of the Python source:
  - src/linting.py : lint rules, per-area checkers, the LintCache
    (filtering, spatial country derivation, url-alias clash detection,
    update_area), and
  - src/app.py     : the /api/lint/sync batch loop (lint_sync).

Modelling conventions:
  - Python dicts of tags become insertion-ordered association lists
    `List (String × String)`; the structured `geo_json` tag, which the code
    only ever feeds to shapely's `shape`, is carried in a separate
    `geo_json : Option GeoJson` field (None models an absent key).
  - shapely geometries (an external library, not repository code) are
    modelled abstractly by a `Geom` record carrying exactly the data the
    repository reads from them: a bounding box, a centroid, a decidable
    point-containment test, and the `is_valid` flag.  `GeoJson.malformed`
    models a geo_json value on which `shape` raises.
  - The STRtree spatial index is modelled as the insertion-ordered list of
    indexed geometries; `query(point)` returns, in insertion order, the
    candidates whose bounding box contains the point.
  - Timestamp strings are kept as strings where the code treats them as
    strings (the sync cursor is compared with Python string `>`, which is
    the lexicographic order also used by Lean's `String` order).
  - datetimes are embedded as `Int` microseconds since the Unix epoch
    (wall-clock reading), with an optional utc-offset component;
    `datetime.now()` becomes an explicit `now : Int` parameter.
  - `requests.get` is a parameter `fetch`; a `none` result models a raised
    `requests.exceptions.RequestException` (which the loop catches and
    turns into an early break).  The cursor advance
    `datetime.fromisoformat/strftime` round-trip is a parameter
    `advance : String → Option String` (`none` models a parse failure,
    which the code catches and turns into a break).
-/

/-- One lint issue as produced by `LintResult.to_dict` in src/linting.py:
the rule's fields are inlined, and the `extra_data` of url-alias-clash
issues (clashing ids and names) is flattened into the record (empty lists
model the absence of extra data). -/
structure LintIssue where
  rule_id : String
  rule_name : String
  description : String
  severity : String
  auto_fixable : Bool
  fix_action : Option String
  message : String
  current_value : Option String
  clashing_area_ids : List String := []
  clashing_area_names : List String := []
deriving DecidableEq

/-- A point in the plane, with integer coordinates (the claims only need
points with integral coordinates). -/
structure GPoint where
  x : Int
  y : Int
deriving DecidableEq

/-- An axis-aligned bounding box. -/
structure GBBox where
  minx : Int
  miny : Int
  maxx : Int
  maxy : Int
deriving DecidableEq

/-- Abstract model of a shapely geometry: the repository only reads a
geometry's bounding box (via the STRtree), its centroid, its exact
point-containment predicate, and its `is_valid` flag. -/
structure Geom where
  bbox : GBBox
  centroidP : GPoint
  containsP : GPoint → Bool
  is_valid : Bool

/-- A geo_json tag value: either something `shape` parses to a geometry, or
a malformed value on which `shape` raises. -/
inductive GeoJson where
  | malformed : GeoJson
  | parsed : Geom → GeoJson

/-- An upstream area record as returned by the /v3/areas endpoint.
`updated_at = ""` models a missing/empty timestamp (the code reads it with
`area.get('updated_at', '')`).  `id = none` models a record without an id
(the code reads `area.get('id', ...)`). -/
structure Area where
  id : Option String
  updated_at : String
  deleted_at : Option String
  tags : List (String × String)
  geo_json : Option GeoJson

/-- One cached entry of LintCache.results (src/linting.py, update_area). -/
structure AreaResult where
  area_id : String
  area_name : String
  area_type : String
  is_deleted : Bool
  country_id : Option String
  country_name : Option String
  tags : List (String × String)
  geo_json : Option GeoJson
  issues : List LintIssue

/-- Association-list lookup, modelling Python's `dict.get` (first binding
wins; tag dicts are built once, so there is one binding per key). -/
def lookupTag (tags : List (String × String)) (k : String) : Option String :=
  match tags with
  | [] => none
  | (k0, v) :: t => if k0 = k then some v else lookupTag t k

/-- Model of `str.startsWith` on explicit character lists (used to embed
the anchored literal prefix of the icon-url regular expression). -/
def chStarts : List Char → List Char → Bool
  | [], _ => true
  | _ :: _, [] => false
  | a :: as, b :: bs => a == b && chStarts as bs

/-- A regex word character (`\w`), restricted to ASCII as used by the
icon-url file extensions. -/
def isWordChar (c : Char) : Bool :=
  c.isAlpha || c.isDigit || c == '_'

/-- Model of `re.match(rf'^https://static\.btcmap\.org/images/areas/{re.escape(id)}\.\w+$', url)`
from check_icon_legacy_url: the url must be the literal prefix, then the
(escaped, hence literal) area id, then a dot, then one or more word
characters, and nothing else. -/
def matchesExpectedIconUrl (areaId url : String) : Bool :=
  let pre : List Char := "https://static.btcmap.org/images/areas/".data ++ areaId.data ++ ['.']
  chStarts pre url.data &&
    (let rest := url.data.drop pre.length
     !rest.isEmpty && rest.all isWordChar)

/-- `get_area_id_from_area` from src/linting.py: `str(area.get('id', ''))`. -/
def getAreaIdFromArea (a : Area) : String :=
  a.id.getD ""

/-- The icon-legacy-url lint issue (rule fields from LINT_RULES). -/
def mkIconLegacyIssue (currentUrl : String) : LintIssue :=
  { rule_id := "icon-legacy-url"
    rule_name := "Legacy Icon URL"
    description := "Icon is not hosted on the standard static.btcmap.org location"
    severity := "warning"
    auto_fixable := true
    fix_action := some "migrate_icon"
    message := "Icon URL does not match expected format"
    current_value := some currentUrl }

/-- The `icon:square` tag of an area, read with `tags.get('icon:square', '')`. -/
def iconSquareOf (a : Area) : String :=
  (lookupTag a.tags "icon:square").getD ""

/-- `check_icon_legacy_url` from src/linting.py. -/
def checkIconLegacyUrl (a : Area) : Option LintIssue :=
  let icon_url := iconSquareOf a
  if icon_url = "" then
    none
  else
    let area_id := getAreaIdFromArea a
    if matchesExpectedIconUrl area_id icon_url then
      none
    else
      some (mkIconLegacyIssue icon_url)

/-- The icon-missing lint issue (rule fields from LINT_RULES). -/
def mkIconMissingIssue : LintIssue :=
  { rule_id := "icon-missing"
    rule_name := "Missing Icon"
    description := "No icon:square tag is set for this area"
    severity := "error"
    auto_fixable := false
    fix_action := none
    message := "No icon is set for this area"
    current_value := none }

/-- `check_icon_missing` from src/linting.py. -/
def checkIconMissing (a : Area) : Option LintIssue :=
  let icon_url := iconSquareOf a
  if icon_url = "" || icon_url = "pending-upload" then
    some mkIconMissingIssue
  else
    none

/-- Number of days in a month of the proleptic Gregorian calendar, as
validated by `datetime`. -/
def daysInMonth (y m : Int) : Int :=
  if m = 2 then
    (if y % 4 = 0 && (y % 100 != 0 || y % 400 = 0) then 29 else 28)
  else if m = 4 || m = 6 || m = 9 || m = 11 then 30
  else 31

/-- Days since 1970-01-01 of a civil date (proleptic Gregorian); the
standard days-from-civil algorithm, embedding `datetime`'s calendar. -/
def daysFromCivil (y m d : Int) : Int :=
  let y2 := if m ≤ 2 then y - 1 else y
  let era := (if 0 ≤ y2 then y2 else y2 - 399) / 400
  let yoe := y2 - era * 400
  let mp := (m + 9) % 12
  let doy := (153 * mp + 2) / 5 + d - 1
  let doe := yoe * 365 + yoe / 4 - yoe / 100 + doy
  era * 146097 + doe - 719468

/-- Civil date (y, m, d) of a day count since 1970-01-01; inverse of
daysFromCivil, used to embed `strftime('%Y-%m-%d')`. -/
def civilFromDays (z0 : Int) : Int × Int × Int :=
  let z := z0 + 719468
  let era := (if 0 ≤ z then z else z - 146096) / 146097
  let doe := z - era * 146097
  let yoe := (doe - doe / 1460 + doe / 36524 - doe / 146096) / 365
  let y := yoe + era * 400
  let doy := doe - (365 * yoe + yoe / 4 - yoe / 100)
  let mp := (5 * doy + 2) / 153
  let d := doy - (153 * mp + 2) / 5 + 1
  let m := mp + (if mp < 10 then 3 else -9)
  (y + (if m ≤ 2 then 1 else 0), m, d)

/-- Microseconds per day. -/
def usPerDay : Int := 86400000000

/-- Parse a list of decimal digit characters to a number; `none` if empty
or a non-digit occurs. -/
def digitsToNat : List Char → Option Nat
  | [] => none
  | cs => if cs.all Char.isDigit then
      some (cs.foldl (fun acc c => acc * 10 + (c.toNat - '0'.toNat)) 0)
    else none

/-- Split a character list on a separator character. -/
def splitOnChar (sep : Char) (cs : List Char) : List (List Char) :=
  match cs with
  | [] => [[]]
  | c :: t =>
    let r := splitOnChar sep t
    if c == sep then [] :: r
    else match r with
      | [] => [[c]]
      | h :: t2 => (c :: h) :: t2

/-- A parsed datetime: wall-clock microseconds since the epoch, and the
utc offset in microseconds when the string carried one.  Python's
`replace(tzinfo=None)` keeps the wall-clock reading and drops the offset,
so the offset never affects the embedded comparisons. -/
structure PyDateTime where
  wallUs : Int
  tzOffsetUs : Option Int
deriving DecidableEq

/-- `datetime.strptime(s, '%Y-%m-%d')`: exactly three dash-separated
fields; a four-digit year, a one- or two-digit month in 1..12, a one- or
two-digit day valid for that month.  Result is midnight, naive. -/
def strptimeYMD (s : String) : Option PyDateTime :=
  match splitOnChar '-' s.data with
  | [ys, ms, ds] =>
    if ys.length = 4 && (ms.length = 1 || ms.length = 2) &&
       (ds.length = 1 || ds.length = 2) then
      match digitsToNat ys, digitsToNat ms, digitsToNat ds with
      | some y, some m, some d =>
        if 1 ≤ y && y ≤ 9999 && 1 ≤ m && m ≤ 12 && 1 ≤ d &&
           (d : Int) ≤ daysInMonth (y : Int) (m : Int) then
          some { wallUs := daysFromCivil (y : Int) (m : Int) (d : Int) * usPerDay
                 tzOffsetUs := none }
        else none
      | _, _, _ => none
    else none
  | _ => none

/-- Parse `HH:MM[:SS[.ffffff]]` into microseconds since midnight. -/
def parseTimeOfDay (cs : List Char) : Option Int :=
  let core : List Char → Option (Nat × Nat × Nat × Nat) := fun cs =>
    match splitOnChar ':' cs with
    | [hs, ms] =>
      match digitsToNat hs, digitsToNat ms with
      | some h, some m =>
        if hs.length = 2 && ms.length = 2 && h ≤ 23 && m ≤ 59 then
          some (h, m, 0, 0)
        else none
      | _, _ => none
    | [hs, ms, ss] =>
      match splitOnChar '.' ss with
      | [sec] =>
        match digitsToNat hs, digitsToNat ms, digitsToNat sec with
        | some h, some m, some s2 =>
          if hs.length = 2 && ms.length = 2 && sec.length = 2 &&
             h ≤ 23 && m ≤ 59 && s2 ≤ 59 then
            some (h, m, s2, 0)
          else none
        | _, _, _ => none
      | [sec, frac] =>
        match digitsToNat hs, digitsToNat ms, digitsToNat sec, digitsToNat frac with
        | some h, some m, some s2, some f =>
          if hs.length = 2 && ms.length = 2 && sec.length = 2 &&
             h ≤ 23 && m ≤ 59 && s2 ≤ 59 &&
             1 ≤ frac.length && frac.length ≤ 6 then
            some (h, m, s2, f * 10 ^ (6 - frac.length))
          else none
        | _, _, _, _ => none
      | _ => none
    | _ => none
  (core cs).map fun (h, m, s2, f) =>
    ((h : Int) * 3600 + (m : Int) * 60 + (s2 : Int)) * 1000000 + (f : Int)

/-- Parse the `YYYY-MM-DD` date prefix (zero-padded, as required by
`datetime.fromisoformat`); returns the day count and the remaining
characters. -/
def parseIsoDatePart (cs : List Char) : Option (Int × List Char) :=
  match cs with
  | y1 :: y2 :: y3 :: y4 :: '-' :: m1 :: m2 :: '-' :: d1 :: d2 :: rest =>
    match digitsToNat [y1, y2, y3, y4], digitsToNat [m1, m2], digitsToNat [d1, d2] with
    | some y, some m, some d =>
      if 1 ≤ y && y ≤ 9999 && 1 ≤ m && m ≤ 12 && 1 ≤ d &&
         (d : Int) ≤ daysInMonth (y : Int) (m : Int) then
        some (daysFromCivil (y : Int) (m : Int) (d : Int), rest)
      else none
    | _, _, _ => none
  | _ => none

/-- `datetime.fromisoformat` on the formats the upstream API emits:
`YYYY-MM-DD`, optionally followed by a `T` (or space) separator and a
time `HH:MM[:SS[.ffffff]]`, optionally followed by a numeric utc offset
`+HH:MM`/`-HH:MM`. -/
def fromIsoFormat (s : String) : Option PyDateTime :=
  match parseIsoDatePart s.data with
  | none => none
  | some (days, rest) =>
    match rest with
    | [] => some { wallUs := days * usPerDay, tzOffsetUs := none }
    | sep :: timecs =>
      if sep == 'T' || sep == ' ' then
        let splitOff : List Char → List Char × Option (Bool × List Char) := fun cs =>
          let rec go (acc : List Char) (rem : List Char) :
              List Char × Option (Bool × List Char) :=
            match rem with
            | [] => (acc.reverse, none)
            | '+' :: t => (acc.reverse, some (true, t))
            | '-' :: t => (acc.reverse, some (false, t))
            | c :: t => go (c :: acc) t
          go [] cs
        let (timePart, offPart) := splitOff timecs
        match parseTimeOfDay timePart with
        | none => none
        | some us =>
          match offPart with
          | none => some { wallUs := days * usPerDay + us, tzOffsetUs := none }
          | some (pos, offcs) =>
            match splitOnChar ':' offcs with
            | [ohs, oms] =>
              match digitsToNat ohs, digitsToNat oms with
              | some oh, some om =>
                if ohs.length = 2 && oms.length = 2 && oh ≤ 23 && om ≤ 59 then
                  let off : Int := ((oh : Int) * 3600 + (om : Int) * 60) * 1000000
                  some { wallUs := days * usPerDay + us
                         tzOffsetUs := some (if pos then off else -off) }
                else none
              | _, _ => none
            | _ => none
      else none

/-- `s.replace('Z', '+00:00')`. -/
def replaceZ (s : String) : String :=
  ⟨s.data.foldr (fun c acc => if c == 'Z' then '+' :: '0' :: '0' :: ':' :: '0' :: '0' :: acc
                              else c :: acc) []⟩

/-- Zero-pad a natural number's decimal representation to a width. -/
def padNum (width : Nat) (n : Int) : String :=
  let s := toString n.toNat
  ⟨List.replicate (width - s.length) '0' ++ s.data⟩

/-- `verified_date.strftime('%Y-%m-%d')` of a wall-clock microsecond
timestamp. -/
def strftimeYMD (wallUs : Int) : String :=
  let (y, m, d) := civilFromDays (Int.fdiv wallUs usPerDay)
  padNum 4 y ++ "-" ++ padNum 2 m ++ "-" ++ padNum 2 d

/-- The verified-stale issue for a resolved, too-old date
(rule fields from LINT_RULES). -/
def mkVerifiedStaleIssue (verifiedWallUs : Int) (currentValue : String) : LintIssue :=
  { rule_id := "verified-stale"
    rule_name := "Verification Stale"
    description := "Area has not been verified in over 12 months"
    severity := "warning"
    auto_fixable := true
    fix_action := some "bump_verified"
    message := "Last verified " ++ strftimeYMD verifiedWallUs ++ ", over 12 months ago"
    current_value := some currentValue }

/-- The verified-stale issue fired when no verification date resolves. -/
def mkNoVerificationDateIssue : LintIssue :=
  { rule_id := "verified-stale"
    rule_name := "Verification Stale"
    description := "Area has not been verified in over 12 months"
    severity := "warning"
    auto_fixable := true
    fix_action := some "bump_verified"
    message := "No verification date found"
    current_value := none }

/-- 365 days in microseconds: the `timedelta(days=365)` horizon. -/
def staleHorizonUs : Int := 365 * usPerDay

/-- The `verified:date` tag of an area, read with
`tags.get('verified:date', '')`. -/
def verifiedDateStrOf (a : Area) : String :=
  (lookupTag a.tags "verified:date").getD ""

/-- `check_verified_stale` from src/linting.py, with `datetime.now()`
passed in as `now` (wall-clock microseconds).  Resolution: a non-empty
`verified:date` tag is parsed as `%Y-%m-%d`, else with `fromisoformat`
(after replacing `Z`); when the tag is empty/absent, a non-empty
`updated_at` is parsed with `fromisoformat`; if nothing resolves the
issue fires with "No verification date found".  The timezone is dropped
(wall-clock kept) and the issue fires iff the resolved date is strictly
before `now - 365 days`. -/
def resolveVerifiedDate (a : Area) : Option PyDateTime :=
  let verified_date_str := verifiedDateStrOf a
  if verified_date_str ≠ "" then
    match strptimeYMD verified_date_str with
    | some dt => some dt
    | none => fromIsoFormat (replaceZ verified_date_str)
  else
    if a.updated_at ≠ "" then fromIsoFormat (replaceZ a.updated_at)
    else none

/-- The body of check_verified_stale: fire "No verification date found"
when nothing resolves, else fire iff the resolved wall-clock date is
strictly before `now - 365 days`. -/
def checkVerifiedStale (now : Int) (a : Area) : Option LintIssue :=
  let verified_date_str := verifiedDateStrOf a
  let verified_date : Option PyDateTime := resolveVerifiedDate a
  match verified_date with
  | none => some mkNoVerificationDateIssue
  | some dt =>
    if dt.wallUs < now - staleHorizonUs then
      some (mkVerifiedStaleIssue dt.wallUs
        (if verified_date_str ≠ "" then verified_date_str else a.updated_at))
    else
      none

/-- `lint_area_dict` from src/linting.py: the three per-area checkers in
their registration order. -/
def lintAreaDict (now : Int) (a : Area) : List LintIssue :=
  [checkIconMissing a, checkIconLegacyUrl a, checkVerifiedStale now a].filterMap id

/-- Scan for the closing `]` of a glob character class; returns the class
body and the remaining pattern, or `none` when the class is unclosed. -/
def findClassClose (acc : List Char) (rem : List Char) :
    Option (List Char × List Char) :=
  match rem with
  | [] => none
  | ']' :: t => some (acc.reverse, t)
  | c :: t => findClassClose (c :: acc) t

/-- Split the pattern right after a `[`: handles the `!` negation marker
and a literal `]` first class member, as `fnmatch.translate` does.
Returns (negated, class body, rest of pattern). -/
def splitClass (ps : List Char) : Option (Bool × List Char × List Char) :=
  let (neg, ps1) := match ps with
    | '!' :: t => (true, t)
    | _ => (false, ps)
  match ps1 with
  | ']' :: t => (findClassClose [']'] t).map fun (body, rest) => (neg, body, rest)
  | _ => (findClassClose [] ps1).map fun (body, rest) => (neg, body, rest)

/-- Does a character belong to a glob character class body (list of
literal members and `a-b` ranges)? -/
def classHas : List Char → Char → Bool
  | [], _ => false
  | a :: '-' :: b :: rest, c =>
    (decide (a ≤ c) && decide (c ≤ b)) || classHas rest c
  | a :: rest, c => a == c || classHas rest c

/-- Shell-style glob matching, fuelled for structural recursion: every
recursive call strictly decreases `p.length + s.length` (the class case
recurses on a strict suffix of the pattern), so a fuel exceeding that sum
is never exhausted. -/
def globMatchF : Nat → List Char → List Char → Bool
  | 0, _, _ => false
  | fuel + 1, p, s =>
    match p, s with
    | [], [] => true
    | [], _ :: _ => false
    | '*' :: ps, s =>
      globMatchF fuel ps s ||
        (match s with
         | [] => false
         | _ :: t => globMatchF fuel ('*' :: ps) t)
    | '?' :: _, [] => false
    | '?' :: ps, _ :: t => globMatchF fuel ps t
    | '[' :: ps, s =>
      (match splitClass ps with
       | some (neg, body, rest) =>
         (match s with
          | [] => false
          | c :: t => (neg != classHas body c) && globMatchF fuel rest t)
       | none =>
         (match s with
          | '[' :: t => globMatchF fuel ps t
          | _ => false))
    | pc :: ps, s =>
      (match s with
       | [] => false
       | c :: t => pc == c && globMatchF fuel ps t)

/-- Shell-style glob matching of a whole string against a pattern, as
`fnmatch.fnmatchcase` (`fnmatch.fnmatch` with the identity `os.path.normcase`
of POSIX): `*` any sequence, `?` any one character, `[...]`/`[!...]`
character classes, an unclosed `[` is a literal. -/
def globMatch (p : List Char) (s : List Char) : Bool :=
  globMatchF (p.length + s.length + 1) p s

/-- `fnmatch.fnmatch(name, pattern)` on POSIX. -/
def fnmatchB (name pattern : String) : Bool :=
  globMatch pattern.data name.data

/-- One tag filter test from get_results/get_summary in src/linting.py:
`none` as expected value means the tag key must exist with any value; a
value containing `*` is glob-matched with fnmatch; any other value must
equal the area's tag value exactly (both sides already strings, so the
`str()` conversions are identities). -/
def tagFilterMatch (tags : List (String × String)) (k : String)
    (v : Option String) : Bool :=
  match lookupTag tags k, v with
  | none, _ => false
  | some _, none => true
  | some av, some fv =>
    if fv.data.contains '*' then fnmatchB av fv else av = fv

/-- The conjunction over a tag_filters mapping (the for-loop with `break`
in get_results/get_summary computes exactly this conjunction). -/
def tagFiltersAll (tags : List (String × String))
    (tagFilters : List (String × Option String)) : Bool :=
  tagFilters.all fun kv => tagFilterMatch tags kv.1 kv.2

/-- Truthiness of an optional-string request parameter (Python
`if type_filter:` etc.): present and non-empty. -/
def strTruthy : Option String → Bool
  | none => false
  | some s => s ≠ ""

/-- The per-area filter chain shared verbatim by get_results and
get_summary in src/linting.py (the sequence of `continue` guards up to and
including the tag filters). -/
def areaPasses (typeFilter : Option String) (includeDeleted : Bool)
    (tagFilters : Option (List (String × Option String)))
    (countryId : Option String) (r : AreaResult) : Bool :=
  if !includeDeleted && r.is_deleted then false
  else if strTruthy typeFilter && r.area_type ≠ typeFilter.getD "" then false
  else if strTruthy countryId && r.area_type ≠ "country" &&
          r.country_id ≠ countryId then false
  else
    match tagFilters with
    | none => true
    | some tf => tagFiltersAll r.tags tf

/-- The per-area issue filtering of get_results/get_summary: restrict to a
rule id and/or a severity when those filters are truthy. -/
def filterIssues (ruleFilter severityFilter : Option String)
    (issues : List LintIssue) : List LintIssue :=
  let issues := if strTruthy ruleFilter then
      issues.filter (fun i => i.rule_id = ruleFilter.getD "") else issues
  if strTruthy severityFilter then
    issues.filter (fun i => i.severity = severityFilter.getD "")
  else issues

/-- `LintCache.get_results` from src/linting.py.  Each surviving area is
re-emitted with its filtered issue list (the emitted dict carries the same
fields as the cache entry). -/
def getResults (results : List AreaResult) (ruleFilter severityFilter
    typeFilter : Option String) (includeDeleted issuesOnly : Bool)
    (tagFilters : Option (List (String × Option String)))
    (countryId : Option String) : List AreaResult :=
  results.filterMap fun r =>
    if areaPasses typeFilter includeDeleted tagFilters countryId r then
      if issuesOnly && (filterIssues ruleFilter severityFilter r.issues).isEmpty
      then none
      else some { r with issues := filterIssues ruleFilter severityFilter r.issues }
    else none

/-- The `filtered_results` list built inside `LintCache.get_summary`
(same filter chain as get_results; each kept area is copied with its
filtered issues). -/
def getSummaryFiltered (results : List AreaResult) (ruleFilter
    severityFilter typeFilter : Option String)
    (includeDeleted issuesOnly : Bool)
    (tagFilters : Option (List (String × Option String)))
    (countryId : Option String) : List AreaResult :=
  results.filterMap fun r =>
    if areaPasses typeFilter includeDeleted tagFilters countryId r then
      if issuesOnly && (filterIssues ruleFilter severityFilter r.issues).isEmpty
      then none
      else some { r with issues := filterIssues ruleFilter severityFilter r.issues }
    else none

/-- Bump a counter in an insertion-ordered association list
(`d[k] = d.get(k, 0) + 1`). -/
def bumpCount (m : List (String × Nat)) (k : String) : List (String × Nat) :=
  match m with
  | [] => [(k, 1)]
  | (k0, n) :: t => if k0 = k then (k0, n + 1) :: t else (k0, n) :: bumpCount t k

/-- The summary record computed by `LintCache.get_summary` (the cache-level
metadata fields last_sync/is_syncing/sync_progress are taken from the
enclosing cache state by the caller). -/
structure LintSummary where
  total_areas : Nat
  total_all_areas : Nat
  deleted_areas : Nat
  areas_with_issues : Nat
  total_issues : Nat
  issues_by_rule : List (String × Nat)
  issues_by_severity : List (String × Nat)
  areas_by_type : List (String × Nat)

/-- `LintCache.get_summary` from src/linting.py (aggregation part). -/
def getSummary (results : List AreaResult) (ruleFilter severityFilter
    typeFilter : Option String) (includeDeleted issuesOnly : Bool)
    (tagFilters : Option (List (String × Option String)))
    (countryId : Option String) : LintSummary :=
  let filtered := getSummaryFiltered results ruleFilter severityFilter
    typeFilter includeDeleted issuesOnly tagFilters countryId
  let byRule := filtered.foldl
    (fun m r => r.issues.foldl (fun m i => bumpCount m i.rule_id) m) []
  let bySev := filtered.foldl
    (fun m r => r.issues.foldl (fun m i => bumpCount m i.severity) m)
    [("error", 0), ("warning", 0), ("info", 0)]
  let byType := filtered.foldl (fun m r => bumpCount m r.area_type) []
  { total_areas := filtered.length
    total_all_areas := results.length
    deleted_areas := (results.filter (fun r => r.is_deleted)).length
    areas_with_issues := (filtered.filter (fun r => !r.issues.isEmpty)).length
    total_issues := (filtered.map (fun r => r.issues.length)).sum
    issues_by_rule := byRule
    issues_by_severity := bySev
    areas_by_type := byType }

/-- Does a bounding box contain a point (STRtree candidate test)? -/
def bboxHas (b : GBBox) (p : GPoint) : Bool :=
  decide (b.minx ≤ p.x) && decide (p.x ≤ b.maxx) &&
  decide (b.miny ≤ p.y) && decide (p.y ≤ b.maxy)

/-- One entry of `LintCache._country_geometries`: (area_id, area_name,
geometry). -/
abbrev CountryGeom := String × String × Geom

/-- `LintCache.build_country_index` from src/linting.py: the geometries of
country-type cached areas whose geo_json is present, parses, and is valid,
in cache order.  (The STRtree itself is `none`, i.e. falsy, exactly when
this list is empty, so the list alone models both `_country_index` and
`_country_geometries`.) -/
def buildCountryIndex (results : List AreaResult) : List CountryGeom :=
  results.filterMap fun r =>
    if r.area_type = "country" then
      match r.geo_json with
      | some (GeoJson.parsed g) => if g.is_valid then some (r.area_id, r.area_name, g) else none
      | some GeoJson.malformed => none
      | none => none
    else none

/-- `LintCache.derive_country_for_area` from src/linting.py: with an empty
index or missing geo_json the result is (None, 'Unknown'); a malformed
geo_json raises in `shape` and the handler returns (None, 'Unknown');
otherwise the STRtree is queried for candidates whose bounding box
contains the centroid, and the first candidate whose exact geometry
contains the centroid wins, else (None, 'Unknown'). -/
def deriveCountryForArea (cidx : List CountryGeom) (gj : Option GeoJson) :
    Option String × String :=
  if cidx.isEmpty then (none, "Unknown")
  else
    match gj with
    | none => (none, "Unknown")
    | some GeoJson.malformed => (none, "Unknown")
    | some (GeoJson.parsed g) =>
      let centroid := g.centroidP
      let candidates := cidx.filter fun e => bboxHas e.2.2.bbox centroid
      match candidates.find? (fun e => e.2.2.containsP centroid) with
      | some e => (some e.1, e.2.1)
      | none => (none, "Unknown")

/-- `LintCache.derive_countries_for_all_communities` from src/linting.py:
rebuild the country index, null out the country of country-type areas, and
derive the country of every other area from its geo_json centroid. -/
def deriveCountriesForAll (results : List AreaResult) : List AreaResult :=
  let cidx := buildCountryIndex results
  results.map fun r =>
    if r.area_type = "country" then
      { r with country_id := none, country_name := none }
    else
      { r with country_id := (deriveCountryForArea cidx r.geo_json).1
               country_name := some (deriveCountryForArea cidx r.geo_json).2 }

/-- Remove every url-alias-clash issue from every cached entry (first step
of detect_url_alias_clashes). -/
def clearClashIssues (results : List AreaResult) : List AreaResult :=
  results.map fun r =>
    { r with issues := r.issues.filter fun i => i.rule_id ≠ "url-alias-clash" }

/-- The non-empty url_alias of a non-deleted entry, if any (`url_alias =
area_result.get('tags', {}).get('url_alias'); if url_alias:`). -/
def urlAliasOf (r : AreaResult) : Option String :=
  match lookupTag r.tags "url_alias" with
  | some a => if a ≠ "" then some a else none
  | none => none

/-- Append an id under a key of the insertion-ordered alias map
(`url_alias_map[url_alias].append(area_id)`). -/
def aliasInsert (m : List (String × List String)) (k v : String) :
    List (String × List String) :=
  match m with
  | [] => [(k, [v])]
  | (k0, ids) :: t =>
    if k0 = k then (k0, ids ++ [v]) :: t else (k0, ids) :: aliasInsert t k v

/-- One step of the url_alias_map fold: a non-deleted entry with a
non-empty url_alias contributes its id under that alias. -/
def aliasStep (m : List (String × List String)) (r : AreaResult) :
    List (String × List String) :=
  if r.is_deleted then m
  else
    match urlAliasOf r with
    | some a => aliasInsert m a r.area_id
    | none => m

/-- The `url_alias_map` built by detect_url_alias_clashes: alias value to
the ids of the non-deleted entries carrying it, in cache order. -/
def buildAliasMap (results : List AreaResult) : List (String × List String) :=
  results.foldl aliasStep []

/-- The url-alias-clash issue attached to one member of a clash group
(rule fields from LINT_RULES; the extra_data fields carry the other
members). -/
def mkClashIssue (aliasV : String) (groupSize : Nat)
    (clashIds clashNames : List String) : LintIssue :=
  { rule_id := "url-alias-clash"
    rule_name := "URL Alias Clash"
    description := "Multiple areas share the same url_alias"
    severity := "error"
    auto_fixable := false
    fix_action := none
    message := "Duplicate url_alias shared by " ++ toString groupSize ++ " areas"
    current_value := some aliasV
    clashing_area_ids := clashIds
    clashing_area_names := clashNames }

/-- Append an issue to the first cached entry with the given area id
(the inner `for area_result in self.results: ... break` of
detect_url_alias_clashes). -/
def appendIssueFirst (results : List AreaResult) (aid : String)
    (iss : LintIssue) : List AreaResult :=
  match results with
  | [] => []
  | r :: t =>
    if r.area_id = aid then { r with issues := r.issues ++ [iss] } :: t
    else r :: appendIssueFirst t aid iss

/-- The names of the entries with the given ids, looked up in cache order
(missing ids contribute nothing, as in the Python inner loop). -/
def namesFor (results : List AreaResult) (aids : List String) : List String :=
  aids.filterMap fun aid =>
    (results.find? fun r => r.area_id = aid).map fun r => r.area_name

/-- Attach the clash issues of one alias group: for each member id, in
group order, the other members' ids and names are collected and one issue
is appended to that member's entry. -/
def addClashGroup (aliasV : String) (aids : List String)
    (results : List AreaResult) : List AreaResult :=
  aids.foldl
    (fun rs cur =>
      let others := aids.filter fun x => x ≠ cur
      let names := namesFor rs others
      appendIssueFirst rs cur (mkClashIssue aliasV aids.length others names))
    results

/-- An entry with its issue list emptied: two caches with equal
stripIssues projections differ only in their issue lists. -/
def stripIssues (r : AreaResult) : AreaResult :=
  { r with issues := [] }

/-- Association lookup in the insertion-ordered alias map. -/
def lookupAL (m : List (String × List String)) (k : String) :
    Option (List String) :=
  match m with
  | [] => none
  | (k0, l) :: t => if k0 = k then some l else lookupAL t k

/-- The second phase of detect_url_alias_clashes: walk the alias map and
attach the clash issues of every group of two or more ids. -/
def addAllClashGroups (m : List (String × List String))
    (rs : List AreaResult) : List AreaResult :=
  m.foldl (fun rs g => if 1 < g.2.length then addClashGroup g.1 g.2 rs else rs) rs

/-- `LintCache.detect_url_alias_clashes` from src/linting.py: clear all
existing url-alias-clash issues, rebuild the alias map, and attach fresh
issues for every group of two or more ids. -/
def detectUrlAliasClashes (results : List AreaResult) : List AreaResult :=
  addAllClashGroups (buildAliasMap (clearClashIssues results))
    (clearClashIssues results)

/-- The fresh cache entry built by `LintCache.update_area` for one area:
deleted areas get an empty issue list, non-country areas get their country
derived against the current index. -/
def mkAreaEntry (cidx : List CountryGeom) (now : Int) (area_id : String)
    (a : Area) : AreaResult :=
  let is_deleted := a.deleted_at.isSome
  let issues := if is_deleted then [] else lintAreaDict now a
  let area_type := (lookupTag a.tags "type").getD "unknown"
  let cpair : Option String × Option String :=
    if area_type ≠ "country" then
      ((deriveCountryForArea cidx a.geo_json).1,
       some (deriveCountryForArea cidx a.geo_json).2)
    else (none, none)
  { area_id := a.id.getD area_id
    area_name := (lookupTag a.tags "name").getD "Unknown"
    area_type := area_type
    is_deleted := is_deleted
    country_id := cpair.1
    country_name := cpair.2
    tags := a.tags
    geo_json := a.geo_json
    issues := issues }

/-- Replace the first entry with the same area id, else append (the
update-or-add loop at the end of update_area). -/
def putEntry (results : List AreaResult) (e : AreaResult) : List AreaResult :=
  match results with
  | [] => [e]
  | r :: t => if r.area_id = e.area_id then e :: t else r :: putEntry t e

/-- `LintCache.update_area` from src/linting.py. -/
def updateArea (cidx : List CountryGeom) (now : Int)
    (results : List AreaResult) (area_id : String) (a : Area) :
    List AreaResult :=
  putEntry results (mkAreaEntry cidx now area_id a)

/-- The fixed full-sync epoch constant INITIAL_SYNC_DATE of lint_sync. -/
def INITIAL_SYNC_DATE : String := "2022-09-01T00:00:00.000Z"

/-- The fixed batch size of lint_sync. -/
def SYNC_BATCH_SIZE : Nat := 100

/-- The mutable per-sync loop state of lint_sync (src/app.py).
`fetchedAreas` is a ghost trace of every record fetched, in order, across
all batches (the code only keeps its length, `total_fetched`). -/
structure LoopSt where
  updated_since : String
  seen : List String
  results : List AreaResult
  processed : Nat
  fetched : Nat
  batches : Nat
  newest : Option String
  progress : Nat × Nat
  fetchedAreas : List Area

/-- The `newest_update` tracking step of lint_sync: a record with a
non-empty `updated_at` replaces the running maximum when it is greater
(Python string `>`). -/
def updStep (acc : Option String) (a : Area) : Option String :=
  if a.updated_at ≠ "" then
    match acc with
    | none => some a.updated_at
    | some n => if n < a.updated_at then some a.updated_at else some n
  else acc

/-- The maximum `updated_at` observed over a list of fetched records
(empty timestamps ignored). -/
def maxUpdated (as : List Area) : Option String :=
  as.foldl updStep none

/-- The per-record body of the batch for-loop of lint_sync: track the
newest/last timestamps, then skip already-seen ids, else run update_area
and count the record as processed.  The accumulator carries the loop
state, `new_in_batch`, and `batch_last_timestamp`. -/
def processArea (cidx : List CountryGeom) (now : Int)
    (acc : LoopSt × Nat × Option String) (a : Area) :
    LoopSt × Nat × Option String :=
  let (l, nib, blt) := acc
  let aid := a.id.getD ""
  let blt := if a.updated_at ≠ "" then some a.updated_at else blt
  let l := { l with newest := updStep l.newest a
                    fetchedAreas := l.fetchedAreas ++ [a] }
  if l.seen.contains aid then (l, nib, blt)
  else
    ({ l with seen := aid :: l.seen
              results := updateArea cidx now l.results aid a
              processed := l.processed + 1 },
     nib + 1, blt)

/-- The whole-batch for-loop of lint_sync. -/
def processBatch (cidx : List CountryGeom) (now : Int) (l : LoopSt)
    (areas : List Area) : LoopSt × Nat × Option String :=
  areas.foldl (processArea cidx now) (l, 0, none)

/-- Outcome of one iteration of the while-loop of lint_sync: continue with
a new state, or break out of the loop with a final state. -/
inductive StepRes where
  | cont : LoopSt → StepRes
  | stop : LoopSt → StepRes

/-- Whether a step outcome is a break. -/
def StepRes.isStop : StepRes → Bool
  | .stop _ => true
  | .cont _ => false

/-- The state carried by a step outcome. -/
def StepRes.state : StepRes → LoopSt
  | .stop l => l
  | .cont l => l

/-- One iteration of the lint_sync while-loop.  `fetch cursor limit` is
the batch request (`none` models a raised RequestException, caught and
turned into a break).  `advance` is the one-millisecond cursor advance
(parse, add `timedelta(milliseconds=1)`, reformat; `none` models a parse
failure, caught and turned into a break).  Break conditions, in code
order: fetch error; empty batch; short batch; zero new ids in the batch
and the artificial advance failed or did not change the cursor. -/
def syncStep (fetch : String → Nat → Option (List Area))
    (advance : String → Option String) (cidx : List CountryGeom)
    (now : Int) (l : LoopSt) : StepRes :=
  match fetch l.updated_since SYNC_BATCH_SIZE with
  | none => .stop { l with batches := l.batches + 1 }
  | some areas =>
    if areas.isEmpty then .stop { l with batches := l.batches + 1 }
    else
      match processBatch cidx now
        { l with batches := l.batches + 1, fetched := l.fetched + areas.length }
        areas with
      | (l2, nib, blt) =>
        if areas.length < SYNC_BATCH_SIZE then
          .stop { l2 with progress := (l2.processed, l2.processed) }
        else if nib = 0 then
          match advance l2.updated_since with
          | none => .stop { l2 with progress := (l2.processed, l2.processed) }
          | some c =>
            if c = l2.updated_since then
              .stop { l2 with progress := (l2.processed, l2.processed) }
            else .cont { l2 with progress := (l2.processed, l2.processed)
                                 updated_since := c }
        else
          match blt with
          | some t => .cont { l2 with progress := (l2.processed, l2.processed)
                                      updated_since := t }
          | none => .cont { l2 with progress := (l2.processed, l2.processed) }

/-- The lint_sync while-loop, run for at most `fuel` iterations (`none`
models an execution that has not broken out within the given fuel). -/
def syncLoop (fetch : String → Nat → Option (List Area))
    (advance : String → Option String) (cidx : List CountryGeom)
    (now : Int) : Nat → LoopSt → Option LoopSt
  | 0, _ => none
  | fuel + 1, l =>
    match syncStep fetch advance cidx now l with
    | .stop l2 => some l2
    | .cont l2 => syncLoop fetch advance cidx now fuel l2

/-- The process-wide LintCache state touched by lint_sync. -/
structure SyncState where
  results : List AreaResult
  last_sync : Option Int
  last_sync_cursor : Option String
  is_syncing : Bool
  sync_progress : Nat × Nat
  countryGeoms : List CountryGeom

/-- The HTTP response of the /api/lint/sync route: a 409 conflict carrying
the current progress, or a success payload. -/
inductive SyncResponse where
  | conflict : Nat × Nat → SyncResponse
  | ok : Nat → Nat → Nat → Bool → SyncResponse

/-- The initial loop state of one lint_sync run over a cache state: pick
incremental mode (previous sync recorded, non-empty cache, truthy stored
cursor) or full mode (epoch cursor, cleared cache); seed `seen_ids` from
the (possibly cleared) cache. -/
def initLoopSt (st : SyncState) : LoopSt :=
  let isIncremental := st.last_sync.isSome && 0 < st.results.length
  let (upd, results0) :=
    if isIncremental && strTruthy st.last_sync_cursor then
      (st.last_sync_cursor.getD "", st.results)
    else (INITIAL_SYNC_DATE, [])
  { updated_since := upd
    seen := results0.map (fun r => r.area_id)
    results := results0
    processed := 0
    fetched := 0
    batches := 0
    newest := none
    progress := (0, 0)
    fetchedAreas := [] }

/-- The ghost trace of fetched records of one lint_sync run (empty when
the loop did not finish within the fuel). -/
def syncTraceOf (fetch : String → Nat → Option (List Area))
    (advance : String → Option String) (now : Int) (fuel : Nat)
    (st : SyncState) : List Area :=
  ((syncLoop fetch advance st.countryGeoms now fuel (initLoopSt st)).map
    (fun l => l.fetchedAreas)).getD []

/-- `lint_sync` from src/app.py.  A call on a cache that is already
syncing returns the 409 conflict without touching the state.  Otherwise
the flag is set, the batch loop runs, the cursor is persisted as the
newest observed `updated_at` (kept unchanged when none was observed),
`last_sync` is stamped, the whole-cache passes (country derivation, then
url-alias-clash detection) run, and the flag is cleared (`finally`).
`none` models a run that does not finish within `fuel` iterations. -/
def lintSync (fetch : String → Nat → Option (List Area))
    (advance : String → Option String) (now : Int) (fuel : Nat)
    (st : SyncState) : Option (SyncResponse × SyncState) :=
  if st.is_syncing then some (.conflict st.sync_progress, st)
  else
    let isIncremental := st.last_sync.isSome && 0 < st.results.length
    match syncLoop fetch advance st.countryGeoms now fuel (initLoopSt st) with
    | none => none
    | some lf =>
      let cursor1 := match lf.newest with
        | some n => some n
        | none => st.last_sync_cursor
      let results1 := deriveCountriesForAll lf.results
      let results2 := detectUrlAliasClashes results1
      some (.ok lf.processed lf.fetched lf.batches isIncremental,
        { results := results2
          last_sync := some now
          last_sync_cursor := cursor1
          is_syncing := false
          sync_progress := lf.progress
          countryGeoms := buildCountryIndex lf.results })

/-- The area ids of the cached entries, in cache order. -/
def cacheIds (rs : List AreaResult) : List String :=
  rs.map fun r => r.area_id

/-- The `new_in_batch` counter computed by one loop iteration of lint_sync
over a fetched batch (observer over processBatch, applied to the loop
state exactly as syncStep does). -/
def newInBatch (cidx : List CountryGeom) (now : Int) (l : LoopSt)
    (areas : List Area) : Nat :=
  (processBatch cidx now
    { l with batches := l.batches + 1, fetched := l.fetched + areas.length }
    areas).2.1

/-- The url-alias-clash issues among an entry's issues. -/
def clashIssuesOf (issues : List LintIssue) : List LintIssue :=
  issues.filter fun i => i.rule_id = "url-alias-clash"

/-- The ids of the non-deleted cached entries carrying a given non-empty
url_alias, in cache order (the membership description of one alias-map
group). -/
def matchingAliasIds (rs : List AreaResult) (aliasV : String) : List String :=
  (rs.filter fun r => !r.is_deleted && urlAliasOf r = some aliasV).map
    fun r => r.area_id

/-- Every soft-deleted cached entry has an empty issue list. -/
def DeletedClean (rs : List AreaResult) : Prop :=
  ∀ r ∈ rs, r.is_deleted = true → r.issues = []

/-- A cache-mutating operation of the lint engine: a per-area update (with
whatever country index is current at that point), the whole-cache country
derivation pass, or the whole-cache url-alias-clash pass. -/
inductive CacheOp where
  | update : List CountryGeom → String → Area → CacheOp
  | deriveAll : CacheOp
  | detectClashes : CacheOp

/-- Apply one cache operation. -/
def applyCacheOp (now : Int) (rs : List AreaResult) : CacheOp → List AreaResult
  | .update cidx aid a => updateArea cidx now rs aid a
  | .deriveAll => deriveCountriesForAll rs
  | .detectClashes => detectUrlAliasClashes rs

/-- An axis-aligned rectangle as a concrete test geometry: its bounding
box is itself, its centroid is its center, containment is the rectangle
test. -/
def rectGeom (x0 y0 x1 y1 : Int) : Geom :=
  { bbox := { minx := x0, miny := y0, maxx := x1, maxy := y1 }
    centroidP := { x := (x0 + x1) / 2, y := (y0 + y1) / 2 }
    containsP := fun p =>
      decide (x0 ≤ p.x) && decide (p.x ≤ x1) &&
      decide (y0 ≤ p.y) && decide (p.y ≤ y1)
    is_valid := true }

/-- Test fixture: a country polygon covering (0,0)-(10,10). -/
def countryRect : CountryGeom := ("c1", "CountryA", rectGeom 0 0 10 10)

/-- Test fixture: a community shape with centroid (5,5). -/
def commMidGeom : Geom := rectGeom 0 0 10 10

/-- Test fixture: a community shape with centroid (50,50). -/
def commFarGeom : Geom := rectGeom 45 45 55 55

/-- Test fixture: an area whose icon is the pending-upload sentinel. -/
def cexIconArea : Area :=
  { id := some "42", updated_at := "", deleted_at := none
    tags := [("icon:square", "pending-upload")], geo_json := none }

/-- Test fixture: an area with an unparseable verified:date and a recent,
parseable updated_at. -/
def cexStaleArea : Area :=
  { id := some "1", updated_at := "2024-01-01T00:00:00Z", deleted_at := none
    tags := [("verified:date", "not-a-date")], geo_json := none }

/-- Test fixture: 2024-01-02 00:00 as "now" (microseconds). -/
def cexStaleNow : Int := daysFromCivil 2024 1 2 * usPerDay

/-- Test fixture: an area verified 366 days before `staleWitnessNow`. -/
def staleWitnessArea : Area :=
  { id := some "1", updated_at := "", deleted_at := none
    tags := [("verified:date", "2023-01-01")], geo_json := none }

/-- Test fixture: 2024-01-02 01:00, i.e. 366 days and one hour after
midnight of 2023-01-01. -/
def staleWitnessNow : Int := daysFromCivil 2024 1 2 * usPerDay + 3600000000

/-- Test fixture: a plain cached community entry. -/
def entryA1 : AreaResult :=
  { area_id := "a1", area_name := "A1", area_type := "community"
    is_deleted := false, country_id := none, country_name := none
    tags := [], geo_json := none, issues := [] }

/-- Test fixture: a cache state that is mid-sync. -/
def stGuardBusy : SyncState :=
  { results := [], last_sync := none, last_sync_cursor := none
    is_syncing := true, sync_progress := (3, 4), countryGeoms := [] }

/-- Test fixture: an idle, empty cache state. -/
def stGuardIdle : SyncState :=
  { results := [], last_sync := none, last_sync_cursor := none
    is_syncing := false, sync_progress := (9, 9), countryGeoms := [] }

/-- The cache state produced by a full sync over `stGuardIdle` whose first
batch is empty. -/
def stGuardIdleAfter : SyncState :=
  { results := [], last_sync := some 0, last_sync_cursor := none
    is_syncing := false, sync_progress := (0, 0), countryGeoms := [] }

/-- Test fixture: an idle cache with one entry and a stored cursor T1. -/
def stCursorT1 : SyncState :=
  { results := [entryA1], last_sync := some 0, last_sync_cursor := some "T1"
    is_syncing := false, sync_progress := (0, 0), countryGeoms := [] }

/-- Test fixture: a loop state at cursor "c0" with nothing processed. -/
def loopW : LoopSt :=
  { updated_since := "c0", seen := [], results := [], processed := 0
    fetched := 0, batches := 0, newest := none, progress := (0, 0)
    fetchedAreas := [] }

/-- Test fixture: a cached entry carrying url_alias "foo". -/
def aliasEntry (i : String) (nm : String) : AreaResult :=
  { area_id := i, area_name := nm, area_type := "community"
    is_deleted := false, country_id := none, country_name := none
    tags := [("url_alias", "foo")], geo_json := none, issues := [] }

/-- Test fixture: three areas sharing url_alias "foo". -/
def clashCache : List AreaResult :=
  [aliasEntry "f1" "F1", aliasEntry "f2" "F2", aliasEntry "f3" "F3"]

/-- Test fixture: a cached community entry with a continent tag. -/
def euEntry : AreaResult :=
  { area_id := "e1", area_name := "E1", area_type := "community"
    is_deleted := false, country_id := none, country_name := none
    tags := [("continent", "europe")], geo_json := none, issues := [] }

/-- Test fixture: a fresh upstream area record with id a2. -/
def updWitnessArea : Area :=
  { id := some "a2", updated_at := "2024-01-01T00:00:00Z", deleted_at := none
    tags := [("type", "community"), ("name", "A2")], geo_json := none }

lemma chStarts_h_p (xs ys : List Char) :
    chStarts ('h' :: xs) ('p' :: ys) = false := by
  simp [chStarts]

lemma pending_not_expected (i : String) :
    matchesExpectedIconUrl i "pending-upload" = false := by
  simp only [matchesExpectedIconUrl, List.cons_append, List.append_assoc,
    chStarts_h_p, Bool.false_and]

/-- C5 counterexample: an area whose `icon:square` is the pending-upload
sentinel does receive an icon-legacy-url issue, contradicting the claim
that icon-legacy-url produces no issue for the sentinel. -/
theorem icon_pending_legacy_cex :
    iconSquareOf cexIconArea = "pending-upload"
    ∧ checkIconLegacyUrl cexIconArea = some (mkIconLegacyIssue "pending-upload") := by
  exact ⟨rfl, by decide⟩

/-- C5 (amended): for every area whose `icon:square` tag is absent, empty,
or the sentinel 'pending-upload', the icon-missing check fires (and it
does not fire otherwise); the icon-legacy-url check produces no issue when
the icon is absent or empty, but for the 'pending-upload' sentinel it
fires as well (the sentinel is not excluded from the legacy-URL check). -/
theorem icon_checks_spec (a : Area) :
    ((iconSquareOf a = "" ∨ iconSquareOf a = "pending-upload") →
      checkIconMissing a = some mkIconMissingIssue)
    ∧ (¬(iconSquareOf a = "" ∨ iconSquareOf a = "pending-upload") →
      checkIconMissing a = none)
    ∧ (iconSquareOf a = "" → checkIconLegacyUrl a = none)
    ∧ (iconSquareOf a = "pending-upload" →
      checkIconLegacyUrl a = some (mkIconLegacyIssue "pending-upload")) := by
  refine ⟨?_, ?_, ?_, ?_⟩
  · intro h
    unfold checkIconMissing
    rcases h with h | h <;> simp [h]
  · intro h
    push_neg at h
    unfold checkIconMissing
    simp [h.1, h.2]
  · intro h
    unfold checkIconLegacyUrl
    simp [h]
  · intro h
    unfold checkIconLegacyUrl
    rw [h]
    simp [pending_not_expected]

/-- Witness for icon_checks_spec at the pending-upload fixture. -/
theorem icon_checks_spec_witness :
    checkIconMissing cexIconArea = some mkIconMissingIssue
    ∧ checkIconLegacyUrl cexIconArea = some (mkIconLegacyIssue "pending-upload") :=
  ⟨(icon_checks_spec cexIconArea).1 (Or.inr rfl),
   (icon_checks_spec cexIconArea).2.2.2 rfl⟩

lemma checkVerifiedStale_resolved (now : Int) (a : Area) (dt : PyDateTime)
    (h : resolveVerifiedDate a = some dt) :
    checkVerifiedStale now a =
      (if dt.wallUs < now - staleHorizonUs then
        some (mkVerifiedStaleIssue dt.wallUs
          (if verifiedDateStrOf a ≠ "" then verifiedDateStrOf a else a.updated_at))
      else none) := by
  unfold checkVerifiedStale
  rw [h]

lemma checkVerifiedStale_unresolved (now : Int) (a : Area)
    (h : resolveVerifiedDate a = none) :
    checkVerifiedStale now a = some mkNoVerificationDateIssue := by
  unfold checkVerifiedStale
  rw [h]

lemma resolve_ymd (a : Area) (dt : PyDateTime) (h1 : verifiedDateStrOf a ≠ "")
    (h2 : strptimeYMD (verifiedDateStrOf a) = some dt) :
    resolveVerifiedDate a = some dt := by
  unfold resolveVerifiedDate
  simp [h1, h2]

lemma resolve_iso (a : Area) (dt : PyDateTime) (h1 : verifiedDateStrOf a ≠ "")
    (h2 : strptimeYMD (verifiedDateStrOf a) = none)
    (h3 : fromIsoFormat (replaceZ (verifiedDateStrOf a)) = some dt) :
    resolveVerifiedDate a = some dt := by
  unfold resolveVerifiedDate
  simp [h1, h2, h3]

lemma resolve_tag_bad (a : Area) (h1 : verifiedDateStrOf a ≠ "")
    (h2 : strptimeYMD (verifiedDateStrOf a) = none)
    (h3 : fromIsoFormat (replaceZ (verifiedDateStrOf a)) = none) :
    resolveVerifiedDate a = none := by
  unfold resolveVerifiedDate
  simp [h1, h2, h3]

lemma resolve_updated (a : Area) (h1 : verifiedDateStrOf a = "")
    (h2 : a.updated_at ≠ "") :
    resolveVerifiedDate a = fromIsoFormat (replaceZ a.updated_at) := by
  unfold resolveVerifiedDate
  simp [h1, h2]

lemma resolve_none (a : Area) (h1 : verifiedDateStrOf a = "")
    (h2 : a.updated_at = "" ∨ fromIsoFormat (replaceZ a.updated_at) = none) :
    resolveVerifiedDate a = none := by
  unfold resolveVerifiedDate
  rcases h2 with h2 | h2 <;> simp [h1, h2]

/-- C6 counterexample: an area whose verified:date is present but
unparseable, and whose updated_at is a recent parseable timestamp, makes
the check fire with "No verification date found" — the resolution never
falls back to updated_at, contradicting the claim's resolution order
(under which the recent updated_at would resolve and the check would not
fire). -/
theorem verified_stale_order_cex :
    checkVerifiedStale cexStaleNow cexStaleArea = some mkNoVerificationDateIssue
    ∧ fromIsoFormat (replaceZ cexStaleArea.updated_at) =
        some { wallUs := 1704067200000000, tzOffsetUs := some 0 }
    ∧ ¬(1704067200000000 < cexStaleNow - staleHorizonUs) :=
  ⟨by decide, by decide, by decide⟩

/-- C6 (amended): the verified-stale check resolves a reference date in
this order: the verified:date tag parsed as YYYY-MM-DD if present and
parseable, else an ISO-8601 parse of verified:date; when verified:date is
absent or empty, an ISO-8601 parse of the area's updated_at; when the
applicable source does not parse (in particular, when a present
verified:date is unparseable in both formats, updated_at is not
consulted), the issue fires with message 'No verification date found'.
After dropping any timezone, the check fires exactly when the resolved
date is strictly more than 365 days before now — so a verified:date
exactly 366 days in the past fires and one exactly 364 days in the past
does not. -/
theorem verified_stale_spec (now : Int) (a : Area) :
    (∀ dt, verifiedDateStrOf a ≠ "" → strptimeYMD (verifiedDateStrOf a) = some dt →
      checkVerifiedStale now a =
        (if dt.wallUs < now - staleHorizonUs then
          some (mkVerifiedStaleIssue dt.wallUs (verifiedDateStrOf a)) else none))
    ∧ (∀ dt, verifiedDateStrOf a ≠ "" → strptimeYMD (verifiedDateStrOf a) = none →
        fromIsoFormat (replaceZ (verifiedDateStrOf a)) = some dt →
      checkVerifiedStale now a =
        (if dt.wallUs < now - staleHorizonUs then
          some (mkVerifiedStaleIssue dt.wallUs (verifiedDateStrOf a)) else none))
    ∧ (verifiedDateStrOf a ≠ "" → strptimeYMD (verifiedDateStrOf a) = none →
        fromIsoFormat (replaceZ (verifiedDateStrOf a)) = none →
      checkVerifiedStale now a = some mkNoVerificationDateIssue)
    ∧ (∀ dt, verifiedDateStrOf a = "" → a.updated_at ≠ "" →
        fromIsoFormat (replaceZ a.updated_at) = some dt →
      checkVerifiedStale now a =
        (if dt.wallUs < now - staleHorizonUs then
          some (mkVerifiedStaleIssue dt.wallUs a.updated_at) else none))
    ∧ (verifiedDateStrOf a = "" →
        (a.updated_at = "" ∨ fromIsoFormat (replaceZ a.updated_at) = none) →
      checkVerifiedStale now a = some mkNoVerificationDateIssue)
    ∧ (∀ dt t, verifiedDateStrOf a ≠ "" → strptimeYMD (verifiedDateStrOf a) = some dt →
        0 ≤ t → t < usPerDay →
        ((now = dt.wallUs + 366 * usPerDay + t →
            (checkVerifiedStale now a).isSome = true)
         ∧ (now = dt.wallUs + 364 * usPerDay + t →
            checkVerifiedStale now a = none))) := by
  refine ⟨?_, ?_, ?_, ?_, ?_, ?_⟩
  · intro dt h1 h2
    rw [checkVerifiedStale_resolved now a dt (resolve_ymd a dt h1 h2)]
    simp [h1]
  · intro dt h1 h2 h3
    rw [checkVerifiedStale_resolved now a dt (resolve_iso a dt h1 h2 h3)]
    simp [h1]
  · intro h1 h2 h3
    exact checkVerifiedStale_unresolved now a (resolve_tag_bad a h1 h2 h3)
  · intro dt h1 h2 h3
    rw [checkVerifiedStale_resolved now a dt ((resolve_updated a h1 h2).trans h3)]
    simp [h1]
  · intro h1 h2
    exact checkVerifiedStale_unresolved now a (resolve_none a h1 h2)
  · intro dt t h1 h2 ht0 ht1
    have e := checkVerifiedStale_resolved now a dt (resolve_ymd a dt h1 h2)
    constructor
    · intro hn
      subst hn
      rw [e, if_pos]
      · rfl
      · simp only [staleHorizonUs, usPerDay]
        omega
    · intro hn
      subst hn
      rw [e, if_neg]
      simp only [staleHorizonUs, usPerDay] at *
      omega

/-- Witness for verified_stale_spec: a verified:date exactly 366 days
before "now" fires. -/
theorem verified_stale_spec_witness :
    (checkVerifiedStale staleWitnessNow staleWitnessArea).isSome = true :=
  ((verified_stale_spec staleWitnessNow staleWitnessArea).2.2.2.2.2
    { wallUs := 19358 * usPerDay, tzOffsetUs := none } 3600000000
    (by decide) (by decide) (by decide) (by decide)).1 (by decide)

/-- C2: the is_syncing flag guards the sync routine: a call while the flag
is set returns the distinct conflict response carrying the current
progress and leaves the whole cache state (results, progress, cursor,
flag) untouched, without running any batch; and every call that passes
the guard and completes — normally or by an early break — ends with
is_syncing cleared to false. -/
theorem sync_guard_spec (fetch : String → Nat → Option (List Area))
    (advance : String → Option String) (now : Int) (fuel : Nat) (st : SyncState) :
    (st.is_syncing = true →
      lintSync fetch advance now fuel st =
        some (SyncResponse.conflict st.sync_progress, st))
    ∧ (∀ r st', st.is_syncing = false →
        lintSync fetch advance now fuel st = some (r, st') →
        st'.is_syncing = false) := by
  constructor
  · intro h
    unfold lintSync
    rw [h]
    rfl
  · intro r st' h hs
    unfold lintSync at hs
    rw [h] at hs
    simp only [Bool.false_eq_true, if_false] at hs
    rcases hloop : syncLoop fetch advance st.countryGeoms now fuel (initLoopSt st)
      with _ | lf <;> rw [hloop] at hs
    · exact absurd hs (by simp)
    · simp only [Option.some.injEq, Prod.mk.injEq] at hs
      rw [← hs.2]

/-- Witness for sync_guard_spec: the busy fixture gets the conflict
response with its progress and unchanged state; a completed idle run ends
with the flag off. -/
theorem sync_guard_spec_witness :
    lintSync (fun _ _ => some []) (fun s => some s) 0 1 stGuardBusy
      = some (SyncResponse.conflict (3, 4), stGuardBusy)
    ∧ stGuardIdleAfter.is_syncing = false :=
  ⟨(sync_guard_spec (fun _ _ => some []) (fun s => some s) 0 1 stGuardBusy).1 rfl,
   (sync_guard_spec (fun _ _ => some []) (fun s => some s) 0 1 stGuardIdle).2
     (SyncResponse.ok 0 0 1 false) stGuardIdleAfter rfl rfl⟩

lemma putEntry_ids_mem (rs : List AreaResult) (e : AreaResult)
    (h : e.area_id ∈ cacheIds rs) : cacheIds (putEntry rs e) = cacheIds rs := by
  induction rs with
  | nil => simp [cacheIds] at h
  | cons r t ih =>
    by_cases hr : r.area_id = e.area_id
    · simp [putEntry, hr, cacheIds]
    · have h' : e.area_id ∈ cacheIds t := by
        simp only [cacheIds, List.map_cons, List.mem_cons] at h
        rcases h with h | h
        · exact absurd h.symm hr
        · exact h
      have ih' := ih h'
      simp only [cacheIds, List.map_cons] at ih' ⊢
      rw [show putEntry (r :: t) e = r :: putEntry t e from by
        simp [putEntry, hr]]
      simp only [List.map_cons]
      rw [ih']

lemma putEntry_not_mem (rs : List AreaResult) (e : AreaResult)
    (h : e.area_id ∉ cacheIds rs) : putEntry rs e = rs ++ [e] := by
  induction rs with
  | nil => rfl
  | cons r t ih =>
    simp only [cacheIds, List.map_cons, List.mem_cons, not_or] at h
    have hne : ¬r.area_id = e.area_id := fun hh => h.1 hh.symm
    show (if r.area_id = e.area_id then e :: t else r :: putEntry t e)
      = r :: t ++ [e]
    rw [if_neg hne, ih (by simp only [cacheIds]; exact h.2)]
    rfl

lemma putEntry_nodup (rs : List AreaResult) (e : AreaResult)
    (h : (cacheIds rs).Nodup) : (cacheIds (putEntry rs e)).Nodup := by
  by_cases hm : e.area_id ∈ cacheIds rs
  · rw [putEntry_ids_mem rs e hm]
    exact h
  · rw [putEntry_not_mem rs e hm]
    simp only [cacheIds, List.map_append, List.map_cons, List.map_nil]
    rw [List.nodup_append]
    refine ⟨h, List.nodup_singleton _, ?_⟩
    intro x hx
    simp only [List.mem_singleton]
    exact fun hxe => hm (hxe ▸ hx)

lemma putEntry_mem_self (rs : List AreaResult) (e : AreaResult) :
    e ∈ putEntry rs e := by
  induction rs with
  | nil => simp [putEntry]
  | cons r t ih =>
    by_cases hr : r.area_id = e.area_id <;> simp [putEntry, hr, ih]

/-- C9: the lint cache never holds two entries with the same area id:
update_area replaces in place the entry whose id matches the freshly
built entry (leaving the id sequence unchanged), appends a genuinely new
id at the end, always leaves the fresh entry in the cache, and preserves
id-uniqueness; consequently any sequence of update_area calls starting
from the empty cache yields pairwise-distinct area ids. -/
theorem update_area_unique_spec (cidx : List CountryGeom) (now : Int) :
    (∀ rs aid a, (cacheIds rs).Nodup →
      (cacheIds (updateArea cidx now rs aid a)).Nodup
      ∧ ((mkAreaEntry cidx now aid a).area_id ∈ cacheIds rs →
          cacheIds (updateArea cidx now rs aid a) = cacheIds rs)
      ∧ ((mkAreaEntry cidx now aid a).area_id ∉ cacheIds rs →
          updateArea cidx now rs aid a = rs ++ [mkAreaEntry cidx now aid a])
      ∧ mkAreaEntry cidx now aid a ∈ updateArea cidx now rs aid a)
    ∧ ∀ calls : List (String × Area),
        (cacheIds (calls.foldl (fun rs c => updateArea cidx now rs c.1 c.2)
          [])).Nodup := by
  constructor
  · intro rs aid a h
    exact ⟨putEntry_nodup _ _ h, fun hm => putEntry_ids_mem _ _ hm,
      fun hm => putEntry_not_mem _ _ hm, putEntry_mem_self _ _⟩
  · intro calls
    have aux : ∀ (cs : List (String × Area)) (rs : List AreaResult),
        (cacheIds rs).Nodup →
        (cacheIds (cs.foldl (fun rs c => updateArea cidx now rs c.1 c.2)
          rs)).Nodup := by
      intro cs
      induction cs with
      | nil => intro rs h; exact h
      | cons c t ih => intro rs h; exact ih _ (putEntry_nodup _ _ h)
    exact aux calls [] (by simp [cacheIds])

/-- Witness for update_area_unique_spec: updating a one-entry cache with a
new id keeps the ids pairwise distinct. -/
theorem update_area_unique_spec_witness :
    (cacheIds [entryA1]).Nodup
    ∧ (cacheIds (updateArea [] 0 [entryA1] "a2" updWitnessArea)).Nodup :=
  ⟨by decide,
   ((update_area_unique_spec [] 0).1 [entryA1] "a2" updWitnessArea (by decide)).1⟩

lemma areaPasses_tagAll (typeF : Option String) (incDel : Bool)
    (tf : List (String × Option String)) (countryF : Option String)
    (r0 : AreaResult)
    (h : areaPasses typeF incDel (some tf) countryF r0 = true) :
    tagFiltersAll r0.tags tf = true := by
  unfold areaPasses at h
  split at h
  · exact absurd h (by simp)
  · split at h
    · exact absurd h (by simp)
    · split at h
      · exact absurd h (by simp)
      · exact h

lemma mem_filtered_tagAll (results : List AreaResult)
    (ruleF sevF typeF : Option String) (incDel issuesOnly : Bool)
    (tf : List (String × Option String)) (countryF : Option String)
    (r : AreaResult)
    (h : r ∈ getResults results ruleF sevF typeF incDel issuesOnly
      (some tf) countryF) :
    ∀ kv ∈ tf, tagFilterMatch r.tags kv.1 kv.2 = true := by
  intro kv hkv
  obtain ⟨r0, hr0, hf⟩ := List.mem_filterMap.mp h
  by_cases hp : areaPasses typeF incDel (some tf) countryF r0 = true
  · rw [if_pos hp] at hf
    split at hf
    · exact absurd hf (by simp)
    · have hr : r.tags = r0.tags := by
        injection hf with hf2
        rw [← hf2]
      rw [hr]
      have hall := areaPasses_tagAll typeF incDel tf countryF r0 hp
      exact List.all_eq_true.mp hall kv hkv
  · rw [if_neg hp] at hf
    exact absurd hf (by simp)

/-- C8: get_results and get_summary keep an area only if every tag filter
matches (logical AND over the tag_filters mapping), where a null filter
value matches iff the tag key exists, a value containing '*' matches by
fnmatch-style glob (so "eu*" matches "europe" and "eurasia"), and any
other value must equal the area's tag value exactly. -/
theorem tag_filter_spec :
    (∀ (results : List AreaResult) ruleF sevF typeF incDel issuesOnly tf countryF r,
      r ∈ getResults results ruleF sevF typeF incDel issuesOnly (some tf) countryF →
      ∀ kv ∈ tf, tagFilterMatch r.tags kv.1 kv.2 = true)
    ∧ (∀ (results : List AreaResult) ruleF sevF typeF incDel issuesOnly tf countryF r,
      r ∈ getSummaryFiltered results ruleF sevF typeF incDel issuesOnly
        (some tf) countryF →
      ∀ kv ∈ tf, tagFilterMatch r.tags kv.1 kv.2 = true)
    ∧ (∀ tags k, tagFilterMatch tags k none = true ↔ (lookupTag tags k).isSome = true)
    ∧ (∀ tags k v av, '*' ∈ v.data → lookupTag tags k = some av →
        (tagFilterMatch tags k (some v) = true ↔ fnmatchB av v = true))
    ∧ (∀ tags k v av, '*' ∉ v.data → lookupTag tags k = some av →
        (tagFilterMatch tags k (some v) = true ↔ av = v))
    ∧ fnmatchB "europe" "eu*" = true ∧ fnmatchB "eurasia" "eu*" = true := by
  refine ⟨mem_filtered_tagAll, ?_, ?_, ?_, ?_, by decide, by decide⟩
  · intro results ruleF sevF typeF incDel issuesOnly tf countryF r h
    exact mem_filtered_tagAll results ruleF sevF typeF incDel issuesOnly
      tf countryF r h
  · intro tags k
    unfold tagFilterMatch
    cases hl : lookupTag tags k <;> simp
  · intro tags k v av hstar hl
    have hcont : v.data.contains '*' = true := List.elem_eq_true_of_mem hstar
    unfold tagFilterMatch
    rw [hl]
    simp only [hcont, if_true]
  · intro tags k v av hstar hl
    have hcont : v.data.contains '*' = false := by
      simp
      exact hstar
    unfold tagFilterMatch
    rw [hl]
    simp only [hcont, Bool.false_eq_true, if_false, decide_eq_true_eq]

/-- Witness for tag_filter_spec: a community with continent=europe passes
the glob filter "eu*" and indeed matches it. -/
theorem tag_filter_spec_witness :
    euEntry ∈ getResults [euEntry] none none none false false
      (some [("continent", some "eu*")]) none
    ∧ tagFilterMatch euEntry.tags "continent" (some "eu*") = true := by
  have hmem : euEntry ∈ getResults [euEntry] none none none false false
      (some [("continent", some "eu*")]) none := by
    rw [show getResults [euEntry] none none none false false
      (some [("continent", some "eu*")]) none = [euEntry] from rfl]
    exact List.mem_singleton.mpr rfl
  exact ⟨hmem, tag_filter_spec.1 [euEntry] none none none false false
    [("continent", some "eu*")] none euEntry hmem ("continent", some "eu*")
    (by simp)⟩

/-- C3: country derivation returns (None, 'Unknown') when the index is
empty, the geo_json is missing, or shape raises on it; otherwise the first
indexed country (in index order) whose bounding box contains the centroid
and whose exact geometry contains the centroid wins, and the result is
Unknown when no indexed country passes both tests.  The whole-cache pass
gives every country-type area a null country id and name.  Concretely, a
community centroid at (5,5) inside a country covering (0,0)-(10,10) is
assigned that country's id, and a centroid at (50,50) outside every
country derives to Unknown. -/
theorem derive_country_spec :
    (∀ gj, deriveCountryForArea [] gj = (none, "Unknown"))
    ∧ (∀ cidx, deriveCountryForArea cidx none = (none, "Unknown"))
    ∧ (∀ cidx, deriveCountryForArea cidx (some GeoJson.malformed) =
        (none, "Unknown"))
    ∧ (∀ cidx g, (∀ e ∈ cidx, ¬(bboxHas e.2.2.bbox g.centroidP = true ∧
          e.2.2.containsP g.centroidP = true)) →
        deriveCountryForArea cidx (some (GeoJson.parsed g)) = (none, "Unknown"))
    ∧ (∀ (l1 : List CountryGeom) e l2 g,
        (∀ e2 ∈ l1, ¬(bboxHas e2.2.2.bbox g.centroidP = true ∧
          e2.2.2.containsP g.centroidP = true)) →
        bboxHas e.2.2.bbox g.centroidP = true →
        e.2.2.containsP g.centroidP = true →
        deriveCountryForArea (l1 ++ e :: l2) (some (GeoJson.parsed g)) =
          (some e.1, e.2.1))
    ∧ (∀ rs r, r ∈ deriveCountriesForAll rs → r.area_type = "country" →
        r.country_id = none ∧ r.country_name = none)
    ∧ deriveCountryForArea [countryRect] (some (GeoJson.parsed commMidGeom)) =
        (some "c1", "CountryA")
    ∧ deriveCountryForArea [countryRect] (some (GeoJson.parsed commFarGeom)) =
        (none, "Unknown") := by
  refine ⟨?_, ?_, ?_, ?_, ?_, ?_, by decide, by decide⟩
  · intro gj
    rfl
  · intro cidx
    unfold deriveCountryForArea
    split <;> rfl
  · intro cidx
    unfold deriveCountryForArea
    split <;> rfl
  · intro cidx g h
    unfold deriveCountryForArea
    split
    · rfl
    · have hfind : (cidx.filter fun e => bboxHas e.2.2.bbox g.centroidP).find?
          (fun e => e.2.2.containsP g.centroidP) = none := by
        rw [List.find?_eq_none]
        intro x hx hq
        have hm := List.mem_filter.mp hx
        exact h x hm.1 ⟨hm.2, hq⟩
      simp only [hfind]
  · intro l1 e l2 g h1 hb hc
    unfold deriveCountryForArea
    split
    · rename_i hemp
      simp at hemp
    · have hnone : (l1.filter fun e2 => bboxHas e2.2.2.bbox g.centroidP).find?
          (fun e2 => e2.2.2.containsP g.centroidP) = none := by
        rw [List.find?_eq_none]
        intro x hx hq
        have hm := List.mem_filter.mp hx
        exact h1 x hm.1 ⟨hm.2, hq⟩
      show (match (List.filter (fun e2 => bboxHas e2.2.2.bbox g.centroidP)
            (l1 ++ e :: l2)).find? (fun e2 => e2.2.2.containsP g.centroidP) with
          | some e2 => (some e2.1, e2.2.1)
          | none => (none, "Unknown")) = (some e.1, e.2.1)
      rw [List.filter_append]
      rw [show List.filter (fun e2 => bboxHas e2.2.2.bbox g.centroidP) (e :: l2)
          = e :: List.filter (fun e2 => bboxHas e2.2.2.bbox g.centroidP) l2 from by
        simp [List.filter_cons, hb]]
      rw [List.find?_append, hnone, Option.none_or]
      rw [show List.find? (fun e2 => e2.2.2.containsP g.centroidP)
          (e :: List.filter (fun e2 => bboxHas e2.2.2.bbox g.centroidP) l2)
          = some e from by simp [List.find?_cons, hc]]
  · intro rs r h hcountry
    simp only [deriveCountriesForAll] at h
    obtain ⟨r0, hr0, heq⟩ := List.mem_map.mp h
    by_cases hc0 : r0.area_type = "country"
    · rw [if_pos hc0] at heq
      rw [← heq]
      exact ⟨rfl, rfl⟩
    · rw [if_neg hc0] at heq
      rcases hD : deriveCountryForArea (buildCountryIndex rs) r0.geo_json
        with ⟨c1, c2⟩
      rw [hD] at heq
      rw [← heq] at hcountry
      exact absurd hcountry hc0

/-- Witness for derive_country_spec: the (5,5) centroid is matched to the
first (and only) indexed country. -/
theorem derive_country_spec_witness :
    deriveCountryForArea [countryRect] (some (GeoJson.parsed commMidGeom)) =
      (some "c1", "CountryA") :=
  derive_country_spec.2.2.2.2.1 [] countryRect [] commMidGeom (by simp)
    (by decide) (by decide)

lemma processArea_us (cidx : List CountryGeom) (now : Int)
    (acc : LoopSt × Nat × Option String) (a : Area) :
    ((processArea cidx now acc a).1).updated_since = acc.1.updated_since := by
  rcases acc with ⟨l, nib, blt⟩
  unfold processArea
  dsimp only
  split <;> rfl

lemma processBatch_foldl_us (cidx : List CountryGeom) (now : Int) :
    ∀ (areas : List Area) (acc : LoopSt × Nat × Option String),
    ((areas.foldl (processArea cidx now) acc).1).updated_since =
      acc.1.updated_since := by
  intro areas
  induction areas with
  | nil => intro acc; rfl
  | cons a t ih =>
    intro acc
    rw [List.foldl_cons, ih (processArea cidx now acc a), processArea_us]

lemma processBatch_us (cidx : List CountryGeom) (now : Int) (l : LoopSt)
    (areas : List Area) :
    ((processBatch cidx now l areas).1).updated_since = l.updated_since :=
  processBatch_foldl_us cidx now areas (l, 0, none)

lemma syncStep_eq_batch (fetch : String → Nat → Option (List Area))
    (advance : String → Option String) (cidx : List CountryGeom) (now : Int)
    (l : LoopSt) (areas : List Area) (l2 : LoopSt) (nib : Nat)
    (blt : Option String)
    (hf : fetch l.updated_since SYNC_BATCH_SIZE = some areas)
    (hne : areas ≠ [])
    (hpb : processBatch cidx now
      { l with batches := l.batches + 1, fetched := l.fetched + areas.length }
      areas = (l2, nib, blt)) :
    syncStep fetch advance cidx now l =
      (if areas.length < SYNC_BATCH_SIZE then
        StepRes.stop { l2 with progress := (l2.processed, l2.processed) }
      else if nib = 0 then
        match advance l2.updated_since with
        | none => StepRes.stop { l2 with progress := (l2.processed, l2.processed) }
        | some c =>
          if c = l2.updated_since then
            StepRes.stop { l2 with progress := (l2.processed, l2.processed) }
          else StepRes.cont { l2 with progress := (l2.processed, l2.processed)
                                      updated_since := c }
      else
        match blt with
        | some t => StepRes.cont { l2 with progress := (l2.processed, l2.processed)
                                           updated_since := t }
        | none => StepRes.cont { l2 with progress := (l2.processed, l2.processed) }) := by
  have hemp : areas.isEmpty = false := by
    cases areas with
    | nil => exact absurd rfl hne
    | cons a t => rfl
  unfold syncStep
  rw [hf]
  simp only [hemp, Bool.false_eq_true, if_false, hpb]
  rcases blt with _ | t <;> rfl

/-- C7: one iteration of the sync batch loop breaks exactly when the fetch
raised (network error), the batch is empty, the batch is shorter than the
requested page size, or the batch contained zero genuinely-new ids and the
artificial one-millisecond cursor advance failed to parse or failed to
change the cursor value; moreover, whenever a full batch contains zero new
ids and the loop continues, the new cursor is exactly the artificially
advanced cursor, a value different from the old one. -/
theorem sync_step_termination (fetch : String → Nat → Option (List Area))
    (advance : String → Option String) (cidx : List CountryGeom) (now : Int)
    (l : LoopSt) :
    ((syncStep fetch advance cidx now l).isStop = true ↔
      (fetch l.updated_since SYNC_BATCH_SIZE = none
       ∨ fetch l.updated_since SYNC_BATCH_SIZE = some []
       ∨ ∃ areas, fetch l.updated_since SYNC_BATCH_SIZE = some areas
           ∧ areas ≠ []
           ∧ (areas.length < SYNC_BATCH_SIZE
              ∨ (newInBatch cidx now l areas = 0
                 ∧ (advance l.updated_since = none
                    ∨ advance l.updated_since = some l.updated_since)))))
    ∧ (∀ areas l2, fetch l.updated_since SYNC_BATCH_SIZE = some areas →
        areas ≠ [] → ¬(areas.length < SYNC_BATCH_SIZE) →
        newInBatch cidx now l areas = 0 →
        syncStep fetch advance cidx now l = StepRes.cont l2 →
        advance l.updated_since = some l2.updated_since
        ∧ l2.updated_since ≠ l.updated_since) := by
  rcases hf : fetch l.updated_since SYNC_BATCH_SIZE with _ | areas
  · constructor
    · constructor
      · intro _
        exact Or.inl rfl
      · intro _
        unfold syncStep
        rw [hf]
        rfl
    · intro areas l2 hf2
      exact absurd hf2 (by simp)
  · by_cases hemp : areas = []
    · subst hemp
      constructor
      · constructor
        · intro _
          exact Or.inr (Or.inl rfl)
        · intro _
          unfold syncStep
          rw [hf]
          rfl
      · intro areas2 l2 hf2
        injection hf2 with hf2
        intro hne2
        exact absurd hf2.symm hne2
    · rcases hpb : processBatch cidx now
          { l with batches := l.batches + 1, fetched := l.fetched + areas.length }
          areas with ⟨l2, nib, blt⟩
      have hus : l2.updated_since = l.updated_since := by
        have h0 := processBatch_us cidx now
          { l with batches := l.batches + 1, fetched := l.fetched + areas.length }
          areas
        rw [hpb] at h0
        exact h0
      have hnib : newInBatch cidx now l areas = nib := by
        unfold newInBatch
        rw [hpb]
      have hstep := syncStep_eq_batch fetch advance cidx now l areas l2 nib blt
        hf hemp hpb
      constructor
      · rw [hstep]
        split
      -- short batch: break
        · rename_i hlen
          constructor
          · intro _
            exact Or.inr (Or.inr ⟨areas, rfl, hemp, Or.inl hlen⟩)
          · intro _
            rfl
        · rename_i hlen
          split
      -- zero new ids in the batch
          · rename_i hz
            split
      -- advance raised: break
            · rename_i hadv
              constructor
              · intro _
                refine Or.inr (Or.inr ⟨areas, rfl, hemp,
                  Or.inr ⟨by rw [hnib, hz], Or.inl ?_⟩⟩)
                rw [← hus]
                exact hadv
              · intro _
                rfl
            · rename_i c hadv
              split
      -- advance did not change the cursor: break
              · rename_i hceq
                constructor
                · intro _
                  refine Or.inr (Or.inr ⟨areas, rfl, hemp,
                    Or.inr ⟨by rw [hnib, hz], Or.inr ?_⟩⟩)
                  rw [← hus, hadv, hceq]
                · intro _
                  rfl
      -- advance moved the cursor: continue
              · rename_i hceq
                constructor
                · intro h
                  exact absurd h (by simp [StepRes.isStop])
                · intro h
                  rcases h with h | h | ⟨areas2, hf2, hne2, h⟩
                  · exact absurd h (by simp)
                  · injection h with h
                    exact absurd h hemp
                  · injection hf2 with hf2
                    subst hf2
                    rcases h with h | ⟨h1, h2⟩
                    · exact absurd h hlen
                    · rcases h2 with h2 | h2
                      · rw [← hus] at h2
                        rw [h2] at hadv
                        exact absurd hadv (by simp)
                      · rw [← hus] at h2
                        rw [h2] at hadv
                        injection hadv with hadv
                        exact absurd hadv.symm hceq
      -- genuinely new ids: continue
          · rename_i hz
            have hfalse : ∀ h2 : (fetch l.updated_since SYNC_BATCH_SIZE = none
                ∨ fetch l.updated_since SYNC_BATCH_SIZE = some []
                ∨ ∃ areas3, fetch l.updated_since SYNC_BATCH_SIZE = some areas3
                    ∧ areas3 ≠ []
                    ∧ (areas3.length < SYNC_BATCH_SIZE
                       ∨ (newInBatch cidx now l areas3 = 0
                          ∧ (advance l.updated_since = none
                             ∨ advance l.updated_since = some l.updated_since)))),
                False := by
              rw [hf]
              intro h
              rcases h with h | h | ⟨areas2, hf2, hne2, h⟩
              · exact absurd h (by simp)
              · injection h with h
                exact absurd h hemp
              · injection hf2 with hf2
                subst hf2
                rcases h with h | ⟨h1, h2⟩
                · exact absurd h hlen
                · rw [hnib] at h1
                  exact absurd h1 hz
            split
            · rename_i t hblt
              constructor
              · intro h
                exact absurd h (by simp [StepRes.isStop])
              · intro h
                exact absurd (hfalse (by rw [hf]; exact h)) (fun x => x)
            · rename_i hblt
              constructor
              · intro h
                exact absurd h (by simp [StepRes.isStop])
              · intro h
                exact absurd (hfalse (by rw [hf]; exact h)) (fun x => x)
      · intro areas2 l3 hf2 hne2 hlen2 hz2 hcont
        injection hf2 with hf2
        subst hf2
        rw [hnib] at hz2
        rw [hstep, if_neg hlen2, if_pos hz2] at hcont
        rcases hadv : advance l2.updated_since with _ | c
        · rw [hadv] at hcont
          exact absurd hcont (by simp)
        · rw [hadv] at hcont
          simp only [] at hcont
          by_cases hceq : c = l2.updated_since
          · rw [if_pos hceq] at hcont
            exact absurd hcont (by simp)
          · rw [if_neg hceq] at hcont
            injection hcont with hcont
            constructor
            · rw [← hus, hadv]
              rw [← hcont]
            · rw [← hcont]
              simp only []
              rw [← hus]
              exact hceq

/-- Witness for sync_step_termination: a fetch that raises makes the
iteration break. -/
theorem sync_step_termination_witness :
    (syncStep (fun _ _ => none) (fun s => some s) [] 0 loopW).isStop = true :=
  (sync_step_termination (fun _ _ => none) (fun s => some s) [] 0 loopW).1.mpr
    (Or.inl rfl)

lemma processArea_newest_trace (cidx : List CountryGeom) (now : Int)
    (acc : LoopSt × Nat × Option String) (a : Area) :
    (processArea cidx now acc a).1.newest = updStep acc.1.newest a
    ∧ (processArea cidx now acc a).1.fetchedAreas =
        acc.1.fetchedAreas ++ [a] := by
  rcases acc with ⟨l, nib, blt⟩
  unfold processArea
  dsimp only
  split <;> exact ⟨rfl, rfl⟩

lemma foldl_processArea_newest (cidx : List CountryGeom) (now : Int) :
    ∀ (areas : List Area) (acc : LoopSt × Nat × Option String),
    acc.1.newest = maxUpdated acc.1.fetchedAreas →
    ((areas.foldl (processArea cidx now) acc).1).newest =
      maxUpdated ((areas.foldl (processArea cidx now) acc).1).fetchedAreas := by
  intro areas
  induction areas with
  | nil => intro acc h; exact h
  | cons a t ih =>
    intro acc h
    rw [List.foldl_cons]
    apply ih
    have h1 := processArea_newest_trace cidx now acc a
    rw [h1.1, h1.2, h]
    unfold maxUpdated
    rw [List.foldl_append]
    rfl

lemma syncStep_newest (fetch : String → Nat → Option (List Area))
    (advance : String → Option String) (cidx : List CountryGeom) (now : Int)
    (l : LoopSt) (h : l.newest = maxUpdated l.fetchedAreas) :
    ((syncStep fetch advance cidx now l).state).newest =
      maxUpdated ((syncStep fetch advance cidx now l).state).fetchedAreas := by
  rcases hf : fetch l.updated_since SYNC_BATCH_SIZE with _ | areas
  · unfold syncStep
    rw [hf]
    exact h
  · by_cases hemp : areas = []
    · subst hemp
      unfold syncStep
      rw [hf]
      exact h
    · rcases hpb : processBatch cidx now
        { l with batches := l.batches + 1, fetched := l.fetched + areas.length }
        areas with ⟨l2, nib, blt⟩
      have hkey : l2.newest = maxUpdated l2.fetchedAreas := by
        have h0 := foldl_processArea_newest cidx now areas
          ({ l with batches := l.batches + 1
                    fetched := l.fetched + areas.length }, 0, none) h
        unfold processBatch at hpb
        rw [hpb] at h0
        exact h0
      rw [syncStep_eq_batch fetch advance cidx now l areas l2 nib blt hf hemp hpb]
      split
      · exact hkey
      · split
        · split
          · exact hkey
          · split
            · exact hkey
            · exact hkey
        · split
          · exact hkey
          · exact hkey

lemma syncLoop_newest (fetch : String → Nat → Option (List Area))
    (advance : String → Option String) (cidx : List CountryGeom) (now : Int) :
    ∀ (fuel : Nat) (l lf : LoopSt),
    syncLoop fetch advance cidx now fuel l = some lf →
    l.newest = maxUpdated l.fetchedAreas →
    lf.newest = maxUpdated lf.fetchedAreas := by
  intro fuel
  induction fuel with
  | zero =>
    intro l lf h
    exact absurd h (by simp [syncLoop])
  | succ f ih =>
    intro l lf h hinv
    unfold syncLoop at h
    rcases hs : syncStep fetch advance cidx now l with l2 | l2 <;> rw [hs] at h
    · have h2 := syncStep_newest fetch advance cidx now l hinv
      rw [hs] at h2
      exact ih l2 lf h h2
    · injection h with h
      subst h
      have h2 := syncStep_newest fetch advance cidx now l hinv
      rw [hs] at h2
      exact h2

lemma maxUpdated_aux :
    ∀ (as : List Area) (acc : Option String) (m : String),
    as.foldl updStep acc = some m →
    (acc = some m ∨ m ∈ as.map (fun a => a.updated_at))
    ∧ (∀ a ∈ as, a.updated_at ≠ "" → a.updated_at ≤ m)
    ∧ (∀ x, acc = some x → x ≤ m) := by
  intro as
  induction as with
  | nil =>
    intro acc m h
    refine ⟨Or.inl h, by simp, ?_⟩
    intro x hx
    rw [hx] at h
    injection h with h
    exact le_of_eq h
  | cons a t ih =>
    intro acc m h
    rw [List.foldl_cons] at h
    obtain ⟨h1, h2, h3⟩ := ih (updStep acc a) m h
    by_cases hu : a.updated_at = ""
    · have he : updStep acc a = acc := by simp [updStep, hu]
      rw [he] at h1 h3
      refine ⟨?_, ?_, h3⟩
      · rcases h1 with h1 | h1
        · exact Or.inl h1
        · exact Or.inr (List.mem_cons_of_mem _ h1)
      · intro b hb hbne
        rcases List.mem_cons.mp hb with rfl | hb
        · exact absurd hu hbne
        · exact h2 b hb hbne
    · have hle : a.updated_at ≤ m := by
        rcases acc with _ | n
        · have he : updStep none a = some a.updated_at := by simp [updStep, hu]
          rw [he] at h3
          exact h3 _ rfl
        · by_cases hlt : n < a.updated_at
          · have he : updStep (some n) a = some a.updated_at := by
              simp [updStep, hu, hlt]
            rw [he] at h3
            exact h3 _ rfl
          · have he : updStep (some n) a = some n := by
              simp [updStep, hu, hlt]
            rw [he] at h3
            exact le_trans (le_of_not_lt hlt) (h3 _ rfl)
      refine ⟨?_, ?_, ?_⟩
      · rcases h1 with h1 | h1
        · rcases acc with _ | n
          · have he : updStep none a = some a.updated_at := by simp [updStep, hu]
            rw [he] at h1
            injection h1 with h1
            exact Or.inr (by simp [h1])
          · by_cases hlt : n < a.updated_at
            · have he : updStep (some n) a = some a.updated_at := by
                simp [updStep, hu, hlt]
              rw [he] at h1
              injection h1 with h1
              exact Or.inr (by simp [h1])
            · have he : updStep (some n) a = some n := by
                simp [updStep, hu, hlt]
              rw [he] at h1
              exact Or.inl h1
        · exact Or.inr (List.mem_cons_of_mem _ h1)
      · intro b hb hbne
        rcases List.mem_cons.mp hb with rfl | hb
        · exact hle
        · exact h2 b hb hbne
      · intro x hx
        subst hx
        by_cases hlt : x < a.updated_at
        · exact le_trans (le_of_lt hlt) hle
        · have he : updStep (some x) a = some x := by simp [updStep, hu, hlt]
          rw [he] at h3
          exact h3 _ rfl

lemma maxUpdated_spec (as : List Area) (m : String)
    (h : maxUpdated as = some m) :
    m ∈ as.map (fun a => a.updated_at)
    ∧ ∀ a ∈ as, a.updated_at ≠ "" → a.updated_at ≤ m := by
  obtain ⟨h1, h2, _⟩ := maxUpdated_aux as none m h
  refine ⟨?_, h2⟩
  rcases h1 with h1 | h1
  · exact absurd h1 (by simp)
  · exact h1

/-- C1: after every completed sync call, the stored cursor equals the
maximum updated_at value observed across all records fetched during the
whole sync (a genuine maximum: it was observed and dominates every
non-empty observed timestamp), and the cursor is left unchanged when no
timestamp was observed; in particular, an incremental sync over a cache
with cursor T1 whose upstream returns no records from T1 completes with
zero records processed after one batch and leaves the cursor at T1. -/
theorem sync_cursor_spec (fetch : String → Nat → Option (List Area))
    (advance : String → Option String) (now : Int) (fuel : Nat)
    (st : SyncState) :
    (∀ p f b inc st', lintSync fetch advance now fuel st =
        some (SyncResponse.ok p f b inc, st') →
      (st'.last_sync_cursor =
        match maxUpdated (syncTraceOf fetch advance now fuel st) with
        | some m => some m
        | none => st.last_sync_cursor)
      ∧ (∀ m, maxUpdated (syncTraceOf fetch advance now fuel st) = some m →
          m ∈ (syncTraceOf fetch advance now fuel st).map (fun a => a.updated_at)
          ∧ ∀ a ∈ syncTraceOf fetch advance now fuel st,
              a.updated_at ≠ "" → a.updated_at ≤ m))
    ∧ (∀ T1 t0, st.is_syncing = false → st.last_sync = some t0 →
        st.results ≠ [] → st.last_sync_cursor = some T1 → T1 ≠ "" →
        fetch T1 SYNC_BATCH_SIZE = some [] → 0 < fuel →
        ∃ st', lintSync fetch advance now fuel st =
            some (SyncResponse.ok 0 0 1 true, st')
          ∧ st'.last_sync_cursor = some T1) := by
  constructor
  · intro p f b inc st' h
    by_cases hsync : st.is_syncing = true
    · unfold lintSync at h
      rw [if_pos hsync] at h
      simp at h
    · unfold lintSync at h
      rw [if_neg hsync] at h
      rcases hloop : syncLoop fetch advance st.countryGeoms now fuel
          (initLoopSt st) with _ | lf <;> rw [hloop] at h
      · simp at h
      · simp only [Option.some.injEq, Prod.mk.injEq] at h
        obtain ⟨hresp, hst⟩ := h
        have hinv : lf.newest = maxUpdated lf.fetchedAreas :=
          syncLoop_newest fetch advance st.countryGeoms now fuel
            (initLoopSt st) lf hloop rfl
        have htr : syncTraceOf fetch advance now fuel st = lf.fetchedAreas := by
          unfold syncTraceOf
          rw [hloop]
          rfl
        constructor
        · rw [← hst, htr, ← hinv]
        · intro m hm
          rw [htr] at hm ⊢
          exact maxUpdated_spec lf.fetchedAreas m hm
  · intro T1 t0 hsync hlast hres hcur hT1 hfetch hfuel
    obtain ⟨k, rfl⟩ : ∃ k, fuel = k + 1 := ⟨fuel - 1, by omega⟩
    have hinit : initLoopSt st =
        { updated_since := T1
          seen := st.results.map (fun r => r.area_id)
          results := st.results
          processed := 0
          fetched := 0
          batches := 0
          newest := none
          progress := (0, 0)
          fetchedAreas := [] } := by
      unfold initLoopSt
      rw [hlast, hcur]
      have h1 : ((some t0 : Option Int).isSome
          && decide (0 < st.results.length)) = true := by
        simp [List.length_pos, hres]
      have h2 : strTruthy (some T1) = true := by
        simp [strTruthy, hT1]
      rw [h1, h2]
      rfl
    have hstep : syncStep fetch advance st.countryGeoms now
        { updated_since := T1, seen := st.results.map (fun r => r.area_id),
          results := st.results, processed := 0, fetched := 0, batches := 0,
          newest := none, progress := (0, 0), fetchedAreas := [] } =
        StepRes.stop
          { updated_since := T1, seen := st.results.map (fun r => r.area_id),
            results := st.results, processed := 0, fetched := 0, batches := 1,
            newest := none, progress := (0, 0), fetchedAreas := [] } := by
      unfold syncStep
      simp only [hfetch]
      rfl
    have hloop : syncLoop fetch advance st.countryGeoms now (k + 1)
        (initLoopSt st) = some
          { updated_since := T1, seen := st.results.map (fun r => r.area_id),
            results := st.results, processed := 0, fetched := 0, batches := 1,
            newest := none, progress := (0, 0), fetchedAreas := [] } := by
      unfold syncLoop
      rw [hinit, hstep]
    have hinc : (st.last_sync.isSome && decide (0 < st.results.length))
        = true := by
      rw [hlast]
      simp [List.length_pos, hres]
    refine ⟨{ results := detectUrlAliasClashes (deriveCountriesForAll st.results),
              last_sync := some now,
              last_sync_cursor := st.last_sync_cursor,
              is_syncing := false,
              sync_progress := (0, 0),
              countryGeoms := buildCountryIndex st.results }, ?_, ?_⟩
    · unfold lintSync
      rw [if_neg (by rw [hsync]; simp)]
      rw [hloop, hinc]
    · exact hcur

/-- Witness for sync_cursor_spec: an incremental sync at cursor T1 whose
upstream has nothing new keeps the cursor at T1 and processes nothing. -/
theorem sync_cursor_spec_witness :
    ∃ st', lintSync (fun _ _ => some ([] : List Area)) (fun s => some s) 0 1
        stCursorT1 = some (SyncResponse.ok 0 0 1 true, st')
      ∧ st'.last_sync_cursor = some "T1" :=
  (sync_cursor_spec (fun _ _ => some []) (fun s => some s) 0 1 stCursorT1).2
    "T1" 0 rfl rfl (List.cons_ne_nil entryA1 []) rfl (by decide) rfl
    (by decide)

lemma appendIssueFirst_strip (rs : List AreaResult) (aid : String)
    (iss : LintIssue) :
    (appendIssueFirst rs aid iss).map stripIssues = rs.map stripIssues := by
  induction rs with
  | nil => rfl
  | cons r t ih =>
    unfold appendIssueFirst
    by_cases hr : r.area_id = aid
    · rw [if_pos hr]
      rfl
    · rw [if_neg hr]
      simp only [List.map_cons]
      rw [ih]

lemma find?_id_of_strip :
    ∀ (rs1 rs2 : List AreaResult),
    rs1.map stripIssues = rs2.map stripIssues →
    ∀ aid, ((rs1.find? fun r => r.area_id = aid).map fun r => r.area_name)
      = ((rs2.find? fun r => r.area_id = aid).map fun r => r.area_name) := by
  intro rs1
  induction rs1 with
  | nil =>
    intro rs2 h aid
    cases rs2 with
    | nil => rfl
    | cons r2 t2 => exact absurd h (by simp)
  | cons r1 t1 ih =>
    intro rs2 h aid
    cases rs2 with
    | nil => exact absurd h (by simp)
    | cons r2 t2 =>
      simp only [List.map_cons, List.cons.injEq] at h
      have hid : r1.area_id = r2.area_id := by
        have := congrArg (fun r => r.area_id) h.1
        exact this
      have hnm : r1.area_name = r2.area_name := by
        have := congrArg (fun r => r.area_name) h.1
        exact this
      by_cases hp : r1.area_id = aid
      · have hp2 : r2.area_id = aid := hid ▸ hp
        simp [List.find?_cons, hp, hp2, hnm]
      · have hp2 : ¬r2.area_id = aid := fun hh => hp (hid.trans hh)
        simpa [List.find?_cons, hp, hp2] using ih t2 h.2 aid

lemma namesFor_of_strip (rs1 rs2 : List AreaResult)
    (h : rs1.map stripIssues = rs2.map stripIssues) (aids : List String) :
    namesFor rs1 aids = namesFor rs2 aids := by
  unfold namesFor
  induction aids with
  | nil => rfl
  | cons a t ih =>
    rw [List.filterMap_cons, List.filterMap_cons,
      find?_id_of_strip rs1 rs2 h a, ih]

lemma clearClash_strip (rs : List AreaResult) :
    (clearClashIssues rs).map stripIssues = rs.map stripIssues := by
  unfold clearClashIssues
  rw [List.map_map]
  rfl

lemma addClashGroup_strip (v : String) (aids : List String) :
    ∀ rs : List AreaResult,
    (addClashGroup v aids rs).map stripIssues = rs.map stripIssues := by
  unfold addClashGroup
  have aux : ∀ (work : List String) (rs : List AreaResult),
      ((work.foldl (fun rs cur => appendIssueFirst rs cur
        (mkClashIssue v aids.length (aids.filter fun x => x ≠ cur)
          (namesFor rs (aids.filter fun x => x ≠ cur)))) rs).map stripIssues)
      = rs.map stripIssues := by
    intro work
    induction work with
    | nil => intro rs; rfl
    | cons cur t ih =>
      intro rs
      rw [List.foldl_cons, ih, appendIssueFirst_strip]
  exact fun rs => aux aids rs

lemma addAllClashGroups_strip (m : List (String × List String)) :
    ∀ rs : List AreaResult,
    (addAllClashGroups m rs).map stripIssues = rs.map stripIssues := by
  unfold addAllClashGroups
  induction m with
  | nil => intro rs; rfl
  | cons g t ih =>
    intro rs
    rw [List.foldl_cons]
    by_cases hg : 1 < g.2.length
    · rw [if_pos hg, ih, addClashGroup_strip]
    · rw [if_neg hg, ih]

lemma cacheIds_of_strip (rs1 rs2 : List AreaResult)
    (h : rs1.map stripIssues = rs2.map stripIssues) :
    cacheIds rs1 = cacheIds rs2 := by
  have h1 : cacheIds rs1 = (rs1.map stripIssues).map fun r => r.area_id := by
    rw [List.map_map]
    rfl
  have h2 : cacheIds rs2 = (rs2.map stripIssues).map fun r => r.area_id := by
    rw [List.map_map]
    rfl
  rw [h1, h2, h]

lemma buildAliasMap_of_strip (rs1 rs2 : List AreaResult)
    (h : rs1.map stripIssues = rs2.map stripIssues) :
    buildAliasMap rs1 = buildAliasMap rs2 := by
  have key : ∀ rs : List AreaResult, buildAliasMap rs =
      (rs.map stripIssues).foldl aliasStep [] := by
    intro rs
    unfold buildAliasMap
    rw [List.foldl_map]
    rfl
  rw [key, key, h]

lemma detect_strip (rs : List AreaResult) :
    (detectUrlAliasClashes rs).map stripIssues = rs.map stripIssues := by
  unfold detectUrlAliasClashes
  rw [addAllClashGroups_strip, clearClash_strip]

lemma clearClash_idem (rs : List AreaResult) :
    clearClashIssues (clearClashIssues rs) = clearClashIssues rs := by
  unfold clearClashIssues
  rw [List.map_map]
  apply List.map_congr_left
  intro r _
  simp [Function.comp, List.filter_filter]

lemma clearClash_appendClash (rs : List AreaResult) (aid : String)
    (v : String) (n : Nat) (ids ns : List String) :
    clearClashIssues (appendIssueFirst rs aid (mkClashIssue v n ids ns))
      = clearClashIssues rs := by
  induction rs with
  | nil => rfl
  | cons r t ih =>
    unfold appendIssueFirst
    by_cases hr : r.area_id = aid
    · rw [if_pos hr]
      unfold clearClashIssues
      simp only [List.map_cons]
      congr 1
      simp [mkClashIssue]
    · rw [if_neg hr]
      unfold clearClashIssues at ih ⊢
      simp only [List.map_cons]
      rw [ih]

lemma clearClash_addGroup (v : String) (aids : List String) :
    ∀ rs : List AreaResult,
    clearClashIssues (addClashGroup v aids rs) = clearClashIssues rs := by
  unfold addClashGroup
  have aux : ∀ (work : List String) (rs : List AreaResult),
      clearClashIssues (work.foldl (fun rs cur => appendIssueFirst rs cur
        (mkClashIssue v aids.length (aids.filter fun x => x ≠ cur)
          (namesFor rs (aids.filter fun x => x ≠ cur)))) rs)
      = clearClashIssues rs := by
    intro work
    induction work with
    | nil => intro rs; rfl
    | cons cur t ih =>
      intro rs
      rw [List.foldl_cons, ih, clearClash_appendClash]
  exact fun rs => aux aids rs

lemma clearClash_addAll (m : List (String × List String)) :
    ∀ rs : List AreaResult,
    clearClashIssues (addAllClashGroups m rs) = clearClashIssues rs := by
  unfold addAllClashGroups
  induction m with
  | nil => intro rs; rfl
  | cons g t ih =>
    intro rs
    rw [List.foldl_cons]
    by_cases hg : 1 < g.2.length
    · rw [if_pos hg, ih, clearClash_addGroup]
    · rw [if_neg hg, ih]

lemma clearClash_detect (rs : List AreaResult) :
    clearClashIssues (detectUrlAliasClashes rs) = clearClashIssues rs := by
  unfold detectUrlAliasClashes
  rw [clearClash_addAll, clearClash_idem]

lemma detect_idem (rs : List AreaResult) :
    detectUrlAliasClashes (detectUrlAliasClashes rs)
      = detectUrlAliasClashes rs := by
  have h1 : detectUrlAliasClashes (detectUrlAliasClashes rs) =
      addAllClashGroups
        (buildAliasMap (clearClashIssues (detectUrlAliasClashes rs)))
        (clearClashIssues (detectUrlAliasClashes rs)) := rfl
  rw [h1, clearClash_detect]
  rfl

lemma appendIssueFirst_find_ne (rs : List AreaResult) (aid : String)
    (iss : LintIssue) (aid2 : String) (hne : aid2 ≠ aid) :
    (appendIssueFirst rs aid iss).find? (fun r => r.area_id = aid2)
      = rs.find? (fun r => r.area_id = aid2) := by
  induction rs with
  | nil => rfl
  | cons r t ih =>
    unfold appendIssueFirst
    by_cases hr : r.area_id = aid
    · rw [if_pos hr]
      have hp : ¬r.area_id = aid2 := fun hh => hne (hh ▸ hr ▸ rfl)
      simp [List.find?_cons, hp]
    · rw [if_neg hr]
      by_cases hp : r.area_id = aid2
      · simp [List.find?_cons, hp]
      · simp only [List.find?_cons, hp, decide_False]
        exact ih

lemma appendIssueFirst_find_eq (rs : List AreaResult) (aid : String)
    (iss : LintIssue) :
    (appendIssueFirst rs aid iss).find? (fun r => r.area_id = aid)
      = (rs.find? (fun r => r.area_id = aid)).map
          (fun r => { r with issues := r.issues ++ [iss] }) := by
  induction rs with
  | nil => rfl
  | cons r t ih =>
    unfold appendIssueFirst
    by_cases hr : r.area_id = aid
    · rw [if_pos hr]
      simp [List.find?_cons, hr]
    · rw [if_neg hr]
      simp only [List.find?_cons, hr, decide_False]
      exact ih

lemma aliasInsert_lookup (m : List (String × List String)) (k v : String) :
    ∀ k2, lookupAL (aliasInsert m k v) k2 =
      if k = k2 then some ((lookupAL m k).getD [] ++ [v])
      else lookupAL m k2 := by
  induction m with
  | nil =>
    intro k2
    by_cases h : k = k2 <;> simp [aliasInsert, lookupAL, h]
  | cons p t ih =>
    intro k2
    rcases p with ⟨k0, l0⟩
    unfold aliasInsert
    by_cases h0 : k0 = k
    · rw [if_pos h0]
      subst h0
      by_cases h2 : k0 = k2 <;> simp [lookupAL, h2]
    · rw [if_neg h0]
      by_cases h2 : k0 = k2
      · have hkne : ¬k = k2 := fun hh => h0 (h2.trans hh.symm)
        simp [lookupAL, h2, hkne]
      · by_cases h3 : k = k2
        · subst h3
          simp [lookupAL, h0, h2, ih k]
        · simp [lookupAL, h0, h2, h3, ih]

lemma aliasInsert_keys (m : List (String × List String)) (k v : String) :
    (aliasInsert m k v).map Prod.fst =
      if k ∈ m.map Prod.fst then m.map Prod.fst else m.map Prod.fst ++ [k] := by
  induction m with
  | nil => simp [aliasInsert]
  | cons p t ih =>
    rcases p with ⟨k0, l0⟩
    unfold aliasInsert
    by_cases h0 : k0 = k
    · subst h0
      simp
    · rw [if_neg h0]
      simp only [List.map_cons, List.mem_cons]
      rw [ih]
      by_cases h2 : k ∈ t.map Prod.fst
      · rw [if_pos h2, if_pos (Or.inr h2)]
      · rw [if_neg h2, if_neg (by
          intro hh
          rcases hh with hh | hh
          · exact h0 hh.symm
          · exact h2 hh)]
        rfl

lemma buildAliasMap_keys_nodup (rs : List AreaResult) :
    ((buildAliasMap rs).map Prod.fst).Nodup := by
  unfold buildAliasMap
  have aux : ∀ (l : List AreaResult) (m : List (String × List String)),
      (m.map Prod.fst).Nodup →
      ((l.foldl aliasStep m).map Prod.fst).Nodup := by
    intro l
    induction l with
    | nil => intro m h; exact h
    | cons r t ih =>
      intro m h
      rw [List.foldl_cons]
      apply ih
      unfold aliasStep
      by_cases hd : r.is_deleted
      · simp [hd, h]
      · simp only [hd, Bool.false_eq_true, if_false]
        rcases hu : urlAliasOf r with _ | a
        · exact h
        · rw [aliasInsert_keys]
          by_cases hm : a ∈ m.map Prod.fst
          · rw [if_pos hm]
            exact h
          · rw [if_neg hm]
            simp only [List.nodup_append, List.nodup_singleton]
            exact ⟨h, trivial, by
              intro x hx
              simp only [List.mem_singleton]
              exact fun hxa => hm (hxa ▸ hx)⟩
  exact aux rs [] (by simp)

lemma buildAliasMap_lookup_aux (v : String) :
    ∀ (rs : List AreaResult) (m : List (String × List String)),
    lookupAL (rs.foldl aliasStep m) v =
      if lookupAL m v = none ∧ matchingAliasIds rs v = [] then none
      else some ((lookupAL m v).getD [] ++ matchingAliasIds rs v) := by
  intro rs
  induction rs with
  | nil =>
    intro m
    rcases hm : lookupAL m v with _ | l
    · simp [matchingAliasIds, hm]
    · simp [matchingAliasIds, hm]
  | cons r t ih =>
    intro m
    rw [List.foldl_cons]
    by_cases hd : r.is_deleted
    · have hstep : aliasStep m r = m := by
        unfold aliasStep
        rw [if_pos hd]
      have hmat : matchingAliasIds (r :: t) v = matchingAliasIds t v := by
        simp [matchingAliasIds, List.filter_cons, hd]
      rw [hstep, ih m, hmat]
    · rcases hu : urlAliasOf r with _ | a
      · have hstep : aliasStep m r = m := by
          unfold aliasStep
          rw [if_neg hd, hu]
        have hmat : matchingAliasIds (r :: t) v = matchingAliasIds t v := by
          simp [matchingAliasIds, List.filter_cons, hd, hu]
        rw [hstep, ih m, hmat]
      · have hstep : aliasStep m r = aliasInsert m a r.area_id := by
          unfold aliasStep
          rw [if_neg hd, hu]
        rw [hstep, ih (aliasInsert m a r.area_id)]
        by_cases hav : a = v
        · rw [hav]
          have hu2 : urlAliasOf r = some v := by
            rw [← hav]
            exact hu
          have hmat : matchingAliasIds (r :: t) v =
              r.area_id :: matchingAliasIds t v := by
            simp [matchingAliasIds, List.filter_cons, hd, hu2]
          have hLook : lookupAL (aliasInsert m v r.area_id) v =
              some ((lookupAL m v).getD [] ++ [r.area_id]) := by
            rw [aliasInsert_lookup]
            simp
          rw [hmat, hLook]
          simp
        · have hmat : matchingAliasIds (r :: t) v = matchingAliasIds t v := by
            simp only [matchingAliasIds, List.filter_cons]
            rw [show (!r.is_deleted && decide (urlAliasOf r = some v))
                = false by simp [hu, hav]]
            rfl
          have hLook : lookupAL (aliasInsert m a r.area_id) v
              = lookupAL m v := by
            rw [aliasInsert_lookup]
            rw [if_neg hav]
          rw [hmat, hLook]

lemma buildAliasMap_lookup (rs : List AreaResult) (v : String) :
    lookupAL (buildAliasMap rs) v =
      if matchingAliasIds rs v = [] then none
      else some (matchingAliasIds rs v) := by
  unfold buildAliasMap
  rw [buildAliasMap_lookup_aux]
  by_cases h : matchingAliasIds rs v = [] <;> simp [lookupAL, h]

lemma lookupAL_mem :
    ∀ (m : List (String × List String)) (k : String) (l : List String),
    lookupAL m k = some l → (k, l) ∈ m := by
  intro m
  induction m with
  | nil => intro k l h; exact absurd h (by simp [lookupAL])
  | cons p t ih =>
    intro k l h
    rcases p with ⟨k0, l0⟩
    unfold lookupAL at h
    by_cases h0 : k0 = k
    · rw [if_pos h0] at h
      injection h with h
      subst h0
      subst h
      exact List.mem_cons_self _ _
    · rw [if_neg h0] at h
      exact List.mem_cons_of_mem _ (ih k l h)

lemma mem_lookupAL :
    ∀ (m : List (String × List String)) (k : String) (l : List String),
    (m.map Prod.fst).Nodup → (k, l) ∈ m → lookupAL m k = some l := by
  intro m
  induction m with
  | nil => intro k l _ h; exact absurd h (by simp)
  | cons p t ih =>
    intro k l hnd h
    rcases p with ⟨k0, l0⟩
    simp only [List.map_cons, List.nodup_cons] at hnd
    rcases List.mem_cons.mp h with h | h
    · injection h with h1 h2
      subst h1
      subst h2
      unfold lookupAL
      rw [if_pos rfl]
    · have hk : ¬k0 = k := by
        intro hh
        subst hh
        exact hnd.1 (by
          have : (k0, l) ∈ t := h
          exact List.mem_map.mpr ⟨(k0, l), this, rfl⟩)
      unfold lookupAL
      rw [if_neg hk]
      exact ih k l hnd.2 h

lemma buildAliasMap_mem (rs : List AreaResult) (v : String) (ids : List String) :
    (v, ids) ∈ buildAliasMap rs ↔
      (ids ≠ [] ∧ ids = matchingAliasIds rs v) := by
  constructor
  · intro h
    have hl := mem_lookupAL (buildAliasMap rs) v ids
      (buildAliasMap_keys_nodup rs) h
    rw [buildAliasMap_lookup] at hl
    by_cases hm : matchingAliasIds rs v = []
    · rw [if_pos hm] at hl
      exact absurd hl (by simp)
    · rw [if_neg hm] at hl
      injection hl with hl
      refine ⟨?_, hl.symm⟩
      rw [← hl]
      exact hm
  · intro ⟨hne, hid⟩
    apply lookupAL_mem
    rw [buildAliasMap_lookup, if_neg (by rw [← hid]; exact hne), ← hid]

lemma matchingAliasIds_nodup (rs : List AreaResult) (v : String)
    (h : (cacheIds rs).Nodup) : (matchingAliasIds rs v).Nodup := by
  have hsub : List.Sublist (matchingAliasIds rs v) (cacheIds rs) := by
    unfold matchingAliasIds cacheIds
    exact (List.filter_sublist rs).map _
  exact h.sublist hsub

lemma matchingAliasIds_disjoint (rs : List AreaResult) (v w : String)
    (hnd : (cacheIds rs).Nodup) (hvw : v ≠ w) (a : String)
    (hv : a ∈ matchingAliasIds rs v) (hw : a ∈ matchingAliasIds rs w) :
    False := by
  unfold matchingAliasIds at hv hw
  obtain ⟨r1, hr1, hid1⟩ := List.mem_map.mp hv
  obtain ⟨r2, hr2, hid2⟩ := List.mem_map.mp hw
  have hm1 := List.mem_filter.mp hr1
  have hm2 := List.mem_filter.mp hr2
  have heq : r1 = r2 := by
    apply List.inj_on_of_nodup_map hnd hm1.1 hm2.1
    rw [hid1, hid2]
  have ha1 : urlAliasOf r1 = some v := by
    have := hm1.2
    simp only [Bool.and_eq_true, decide_eq_true_eq] at this
    exact this.2
  have ha2 : urlAliasOf r2 = some w := by
    have := hm2.2
    simp only [Bool.and_eq_true, decide_eq_true_eq] at this
    exact this.2
  rw [heq] at ha1
  rw [ha1] at ha2
  injection ha2 with ha2
  exact hvw ha2

lemma find?_of_mem_nodup :
    ∀ (rs : List AreaResult) (r : AreaResult),
    (cacheIds rs).Nodup → r ∈ rs →
    rs.find? (fun r2 => r2.area_id = r.area_id) = some r := by
  intro rs
  induction rs with
  | nil => intro r _ h; exact absurd h (by simp)
  | cons r0 t ih =>
    intro r hnd hm
    simp only [cacheIds, List.map_cons, List.nodup_cons] at hnd
    rcases List.mem_cons.mp hm with rfl | hm
    · simp [List.find?_cons]
    · have hne : ¬r0.area_id = r.area_id := by
        intro hh
        exact hnd.1 (by
          rw [hh]
          exact List.mem_map.mpr ⟨r, hm, rfl⟩)
      simp only [List.find?_cons, hne, decide_False]
      exact ih r hnd.2 hm

lemma addGroup_work_find_not (v : String) (aids : List String) :
    ∀ (work : List String) (rs : List AreaResult) (aid2 : String),
    aid2 ∉ work →
    ((work.foldl (fun rs cur => appendIssueFirst rs cur
      (mkClashIssue v aids.length (aids.filter fun x => x ≠ cur)
        (namesFor rs (aids.filter fun x => x ≠ cur)))) rs).find?
      (fun r => r.area_id = aid2))
    = rs.find? (fun r => r.area_id = aid2) := by
  intro work
  induction work with
  | nil => intro rs aid2 _; rfl
  | cons cur t ih =>
    intro rs aid2 h
    simp only [List.mem_cons, not_or] at h
    rw [List.foldl_cons, ih _ _ h.2, appendIssueFirst_find_ne _ _ _ _ h.1]

lemma addGroup_work_find_mem (v : String) (aids : List String) :
    ∀ (work : List String) (rs : List AreaResult) (aid2 : String),
    work.Nodup → aid2 ∈ work →
    ((work.foldl (fun rs cur => appendIssueFirst rs cur
      (mkClashIssue v aids.length (aids.filter fun x => x ≠ cur)
        (namesFor rs (aids.filter fun x => x ≠ cur)))) rs).find?
      (fun r => r.area_id = aid2))
    = (rs.find? (fun r => r.area_id = aid2)).map
        (fun r => { r with issues := r.issues ++
          [mkClashIssue v aids.length (aids.filter fun x => x ≠ aid2)
            (namesFor rs (aids.filter fun x => x ≠ aid2))] }) := by
  intro work
  induction work with
  | nil => intro rs aid2 _ h; exact absurd h (by simp)
  | cons cur t ih =>
    intro rs aid2 hnd hm
    simp only [List.nodup_cons] at hnd
    rw [List.foldl_cons]
    by_cases hc : aid2 = cur
    · subst hc
      rw [addGroup_work_find_not v aids t _ aid2 hnd.1,
        appendIssueFirst_find_eq]
    · have hm2 : aid2 ∈ t := by
        rcases List.mem_cons.mp hm with hh | hh
        · exact absurd hh hc
        · exact hh
      rw [ih _ aid2 hnd.2 hm2, appendIssueFirst_find_ne _ _ _ _ hc,
        namesFor_of_strip _ rs (appendIssueFirst_strip rs cur _) _]

lemma addClashGroup_find_not (v : String) (aids : List String)
    (rs : List AreaResult) (aid2 : String) (h : aid2 ∉ aids) :
    (addClashGroup v aids rs).find? (fun r => r.area_id = aid2)
      = rs.find? (fun r => r.area_id = aid2) :=
  addGroup_work_find_not v aids aids rs aid2 h

lemma addClashGroup_find_mem (v : String) (aids : List String)
    (rs : List AreaResult) (aid2 : String) (hnd : aids.Nodup)
    (h : aid2 ∈ aids) :
    (addClashGroup v aids rs).find? (fun r => r.area_id = aid2)
      = (rs.find? (fun r => r.area_id = aid2)).map
          (fun r => { r with issues := r.issues ++
            [mkClashIssue v aids.length (aids.filter fun x => x ≠ aid2)
              (namesFor rs (aids.filter fun x => x ≠ aid2))] }) :=
  addGroup_work_find_mem v aids aids rs aid2 hnd h

lemma addAll_find_not (m : List (String × List String)) :
    ∀ (rs : List AreaResult) (aid2 : String),
    (∀ g ∈ m, 1 < g.2.length → aid2 ∉ g.2) →
    (addAllClashGroups m rs).find? (fun r => r.area_id = aid2)
      = rs.find? (fun r => r.area_id = aid2) := by
  induction m with
  | nil => intro rs aid2 _; rfl
  | cons g t ih =>
    intro rs aid2 h
    unfold addAllClashGroups
    rw [List.foldl_cons]
    by_cases hg : 1 < g.2.length
    · rw [if_pos hg]
      have h1 : (addAllClashGroups t (addClashGroup g.1 g.2 rs)).find?
          (fun r => r.area_id = aid2) = (addClashGroup g.1 g.2 rs).find?
          (fun r => r.area_id = aid2) :=
        ih _ aid2 (fun g2 hg2 => h g2 (List.mem_cons_of_mem _ hg2))
      rw [show (List.foldl (fun rs g => if 1 < g.2.length
          then addClashGroup g.1 g.2 rs else rs) (addClashGroup g.1 g.2 rs) t)
          = addAllClashGroups t (addClashGroup g.1 g.2 rs) from rfl, h1,
        addClashGroup_find_not _ _ _ _ (h g (List.mem_cons_self _ _) hg)]
    · rw [if_neg hg]
      rw [show (List.foldl (fun rs g => if 1 < g.2.length
          then addClashGroup g.1 g.2 rs else rs) rs t)
          = addAllClashGroups t rs from rfl]
      exact ih _ aid2 (fun g2 hg2 => h g2 (List.mem_cons_of_mem _ hg2))

lemma addAll_find_mem (m : List (String × List String)) :
    ∀ (rs : List AreaResult) (aid2 v : String) (ids : List String),
    (m.map Prod.fst).Nodup →
    (v, ids) ∈ m → 1 < ids.length → ids.Nodup → aid2 ∈ ids →
    (∀ w jds, (w, jds) ∈ m → 1 < jds.length → aid2 ∈ jds →
      w = v ∧ jds = ids) →
    (addAllClashGroups m rs).find? (fun r => r.area_id = aid2)
      = (rs.find? (fun r => r.area_id = aid2)).map
          (fun r => { r with issues := r.issues ++
            [mkClashIssue v ids.length (ids.filter fun x => x ≠ aid2)
              (namesFor rs (ids.filter fun x => x ≠ aid2))] }) := by
  induction m with
  | nil => intro rs aid2 v ids _ hm; exact absurd hm (by simp)
  | cons g t ih =>
    intro rs aid2 v ids hknd hm hbig hidnd haid honly
    simp only [List.map_cons, List.nodup_cons] at hknd
    unfold addAllClashGroups
    rw [List.foldl_cons]
    rcases List.mem_cons.mp hm with hg | hg
    · subst hg
      rw [if_pos hbig]
      rw [show (List.foldl (fun rs g => if 1 < g.2.length
          then addClashGroup g.1 g.2 rs else rs) (addClashGroup v ids rs) t)
          = addAllClashGroups t (addClashGroup v ids rs) from rfl]
      have hnone : ∀ g2 ∈ t, 1 < g2.2.length → aid2 ∉ g2.2 := by
        intro g2 hg2 hbig2 haid2
        have := honly g2.1 g2.2 (List.mem_cons_of_mem _ (by
          rcases g2 with ⟨w, jds⟩
          exact hg2)) hbig2 haid2
        exact hknd.1 (by
          rw [← this.1]
          exact List.mem_map.mpr ⟨g2, hg2, rfl⟩)
      rw [addAll_find_not t _ aid2 hnone,
        addClashGroup_find_mem v ids rs aid2 hidnd haid]
    · by_cases hgbig : 1 < g.2.length
      · rw [if_pos hgbig]
        have hnotg : aid2 ∉ g.2 := by
          intro haid2
          have := honly g.1 g.2 (List.mem_cons_self _ _) hgbig haid2
          exact hknd.1 (by
            rw [this.1]
            exact List.mem_map.mpr ⟨(v, ids), hg, rfl⟩)
        rw [show (List.foldl (fun rs g => if 1 < g.2.length
            then addClashGroup g.1 g.2 rs else rs)
            (addClashGroup g.1 g.2 rs) t)
            = addAllClashGroups t (addClashGroup g.1 g.2 rs) from rfl]
        rw [ih _ aid2 v ids hknd.2 hg hbig hidnd haid
          (fun w jds hw => honly w jds (List.mem_cons_of_mem _ hw))]
        rw [addClashGroup_find_not _ _ _ _ hnotg,
          namesFor_of_strip _ rs (addClashGroup_strip g.1 g.2 rs) _]
      · rw [if_neg hgbig]
        rw [show (List.foldl (fun rs g => if 1 < g.2.length
            then addClashGroup g.1 g.2 rs else rs) rs t)
            = addAllClashGroups t rs from rfl]
        exact ih _ aid2 v ids hknd.2 hg hbig hidnd haid
          (fun w jds hw => honly w jds (List.mem_cons_of_mem _ hw))

lemma addAll_small (m : List (String × List String)) :
    ∀ rs : List AreaResult,
    (∀ g ∈ m, ¬1 < g.2.length) → addAllClashGroups m rs = rs := by
  induction m with
  | nil => intro rs _; rfl
  | cons g t ih =>
    intro rs h
    unfold addAllClashGroups
    rw [List.foldl_cons, if_neg (h g (List.mem_cons_self _ _))]
    exact ih rs (fun g2 hg2 => h g2 (List.mem_cons_of_mem _ hg2))

lemma cleared_no_clash (rs : List AreaResult) (r : AreaResult)
    (h : r ∈ clearClashIssues rs) : clashIssuesOf r.issues = [] := by
  unfold clearClashIssues at h
  obtain ⟨r0, _, heq⟩ := List.mem_map.mp h
  rw [← heq]
  unfold clashIssuesOf
  apply List.filter_eq_nil_iff.mpr
  intro i hi
  have hm := List.mem_filter.mp hi
  simp only [decide_eq_true_eq] at hm
  simp only [decide_eq_true_eq]
  exact hm.2

lemma bam_cleared (rs : List AreaResult) :
    buildAliasMap (clearClashIssues rs) = buildAliasMap rs :=
  buildAliasMap_of_strip _ _ (clearClash_strip rs)

lemma cacheIds_cleared (rs : List AreaResult) :
    cacheIds (clearClashIssues rs) = cacheIds rs :=
  cacheIds_of_strip _ _ (clearClash_strip rs)

lemma cacheIds_detect (rs : List AreaResult) :
    cacheIds (detectUrlAliasClashes rs) = cacheIds rs :=
  cacheIds_of_strip _ _ (detect_strip rs)

/-- C4: the url-alias-clash pass removes every pre-existing clash issue
and then attaches, to each member of every group of two or more
non-deleted cached areas sharing the same non-empty url_alias, exactly one
clash issue whose extra data lists the other members' ids and names; an
area belonging to no such group ends up with no clash issue; the alias-map
groups are exactly the non-deleted id lists per shared alias; the pass is
idempotent; and a pass run when no alias is shared (every group of size at
most one) removes all clash issues, leaving exactly the cleared cache. -/
theorem detect_url_alias_clash_spec (rs : List AreaResult) :
    (detectUrlAliasClashes (detectUrlAliasClashes rs)
      = detectUrlAliasClashes rs)
    ∧ (∀ v ids, (v, ids) ∈ buildAliasMap rs ↔
        (ids ≠ [] ∧ ids = matchingAliasIds rs v))
    ∧ ((cacheIds rs).Nodup → ∀ r2, r2 ∈ detectUrlAliasClashes rs →
        (∀ v ids, (v, ids) ∈ buildAliasMap rs → 1 < ids.length →
          r2.area_id ∈ ids →
          clashIssuesOf r2.issues =
            [mkClashIssue v ids.length (ids.filter fun x => x ≠ r2.area_id)
              (namesFor rs (ids.filter fun x => x ≠ r2.area_id))])
        ∧ ((∀ v ids, (v, ids) ∈ buildAliasMap rs → 1 < ids.length →
            r2.area_id ∉ ids) →
          clashIssuesOf r2.issues = []))
    ∧ ((∀ v ids, (v, ids) ∈ buildAliasMap rs → ids.length ≤ 1) →
        detectUrlAliasClashes rs = clearClashIssues rs) := by
  refine ⟨detect_idem rs, buildAliasMap_mem rs, ?_, ?_⟩
  · intro hnd r2 hr2
    have hndd : (cacheIds (detectUrlAliasClashes rs)).Nodup := by
      rw [cacheIds_detect]
      exact hnd
    have hfindd := find?_of_mem_nodup _ r2 hndd hr2
    have hdet : detectUrlAliasClashes rs =
        addAllClashGroups (buildAliasMap (clearClashIssues rs))
          (clearClashIssues rs) := rfl
    have hidmem : r2.area_id ∈ cacheIds (clearClashIssues rs) := by
      rw [cacheIds_cleared]
      rw [← cacheIds_detect rs]
      exact List.mem_map.mpr ⟨r2, hr2, rfl⟩
    obtain ⟨base, hbase, hbid⟩ := List.mem_map.mp hidmem
    have hndc : (cacheIds (clearClashIssues rs)).Nodup := by
      rw [cacheIds_cleared]
      exact hnd
    have hfindc : (clearClashIssues rs).find?
        (fun r => r.area_id = r2.area_id) = some base := by
      have := find?_of_mem_nodup _ base hndc hbase
      rw [hbid] at this
      exact this
    have hbaseclash := cleared_no_clash rs base hbase
    constructor
    · intro v ids hvm hbig haid
      have hidseq := ((buildAliasMap_mem rs v ids).mp hvm).2
      have hidnd : ids.Nodup := by
        rw [hidseq]
        exact matchingAliasIds_nodup rs v hnd
      have honly : ∀ w jds, (w, jds) ∈ buildAliasMap (clearClashIssues rs) →
          1 < jds.length → r2.area_id ∈ jds → w = v ∧ jds = ids := by
        intro w jds hw hwbig hwid
        rw [bam_cleared] at hw
        have hjeq := ((buildAliasMap_mem rs w jds).mp hw).2
        by_cases hwv : w = v
        · subst hwv
          exact ⟨rfl, by rw [hjeq, hidseq]⟩
        · exfalso
          exact matchingAliasIds_disjoint rs w v hnd hwv r2.area_id
            (by rw [← hjeq]; exact hwid) (by rw [← hidseq]; exact haid)
      have hvm2 : (v, ids) ∈ buildAliasMap (clearClashIssues rs) := by
        rw [bam_cleared]
        exact hvm
      have hmain := addAll_find_mem (buildAliasMap (clearClashIssues rs))
        (clearClashIssues rs) r2.area_id v ids
        (buildAliasMap_keys_nodup _) hvm2 hbig hidnd haid honly
      rw [← hdet, hfindd, hfindc] at hmain
      injection hmain with hmain
      have hiss := congrArg (fun r => r.issues) hmain
      dsimp only at hiss
      unfold clashIssuesOf
      rw [hiss, List.filter_append]
      rw [show List.filter (fun i => decide (i.rule_id = "url-alias-clash"))
          base.issues = [] from hbaseclash]
      rw [List.nil_append,
        namesFor_of_strip (clearClashIssues rs) rs (clearClash_strip rs)]
      simp [mkClashIssue]
    · intro hnone
      have hmain := addAll_find_not (buildAliasMap (clearClashIssues rs))
        (clearClashIssues rs) r2.area_id (by
          intro g hg hgbig
          rcases g with ⟨w, jds⟩
          rw [bam_cleared] at hg
          exact hnone w jds hg hgbig)
      rw [← hdet, hfindd, hfindc] at hmain
      injection hmain with hmain
      rw [hmain]
      exact hbaseclash
  · intro hsmall
    have hdet : detectUrlAliasClashes rs =
        addAllClashGroups (buildAliasMap (clearClashIssues rs))
          (clearClashIssues rs) := rfl
    rw [hdet, addAll_small]
    intro g hg
    rcases g with ⟨w, jds⟩
    rw [bam_cleared] at hg
    have := hsmall w jds hg
    show ¬1 < jds.length
    omega

/-- Witness for detect_url_alias_clash_spec: with three areas sharing the
alias "foo", the first member carries exactly one clash issue listing the
other two ids and names. -/
theorem detect_url_alias_clash_spec_witness :
    clashIssuesOf ({ aliasEntry "f1" "F1" with
        issues := [mkClashIssue "foo" 3 ["f2", "f3"] ["F2", "F3"]] }
          : AreaResult).issues
      = [mkClashIssue "foo" 3
          ((["f1", "f2", "f3"] : List String).filter fun x => x ≠ "f1")
          (namesFor clashCache
            ((["f1", "f2", "f3"] : List String).filter fun x => x ≠ "f1"))] := by
  have hr2 : ({ aliasEntry "f1" "F1" with
      issues := [mkClashIssue "foo" 3 ["f2", "f3"] ["F2", "F3"]] } : AreaResult)
      ∈ detectUrlAliasClashes clashCache := by
    rw [show detectUrlAliasClashes clashCache =
        [{ aliasEntry "f1" "F1" with
            issues := [mkClashIssue "foo" 3 ["f2", "f3"] ["F2", "F3"]] },
         { aliasEntry "f2" "F2" with
            issues := [mkClashIssue "foo" 3 ["f1", "f3"] ["F1", "F3"]] },
         { aliasEntry "f3" "F3" with
            issues := [mkClashIssue "foo" 3 ["f1", "f2"] ["F1", "F2"]] }]
      from rfl]
    exact List.mem_cons_self _ _
  exact ((detect_url_alias_clash_spec clashCache).2.2.1 (by decide) _ hr2).1
    "foo" ["f1", "f2", "f3"]
    (by
      rw [show buildAliasMap clashCache = [("foo", ["f1", "f2", "f3"])]
        from rfl]
      exact List.mem_cons_self _ _)
    (by decide) (by decide)

lemma mkAreaEntry_deleted (cidx : List CountryGeom) (now : Int)
    (aid : String) (a : Area)
    (h : (mkAreaEntry cidx now aid a).is_deleted = true) :
    (mkAreaEntry cidx now aid a).issues = [] := by
  have hd : a.deleted_at.isSome = true := h
  show (if a.deleted_at.isSome then [] else lintAreaDict now a) = []
  rw [if_pos hd]

lemma putEntry_mem_src (rs : List AreaResult) (e : AreaResult) :
    ∀ r2 ∈ putEntry rs e, r2 = e ∨ r2 ∈ rs := by
  induction rs with
  | nil =>
    intro r2 h
    rcases List.mem_singleton.mp h with rfl
    exact Or.inl rfl
  | cons r t ih =>
    intro r2 h
    unfold putEntry at h
    by_cases hr : r.area_id = e.area_id
    · rw [if_pos hr] at h
      rcases List.mem_cons.mp h with rfl | h
      · exact Or.inl rfl
      · exact Or.inr (List.mem_cons_of_mem _ h)
    · rw [if_neg hr] at h
      rcases List.mem_cons.mp h with rfl | h
      · exact Or.inr (List.mem_cons_self _ _)
      · rcases ih r2 h with h2 | h2
        · exact Or.inl h2
        · exact Or.inr (List.mem_cons_of_mem _ h2)

lemma updateArea_deletedClean (cidx : List CountryGeom) (now : Int)
    (rs : List AreaResult) (aid : String) (a : Area)
    (h : DeletedClean rs) : DeletedClean (updateArea cidx now rs aid a) := by
  intro r2 h2 hdel
  rcases putEntry_mem_src rs (mkAreaEntry cidx now aid a) r2 h2 with rfl | h2
  · exact mkAreaEntry_deleted cidx now aid a hdel
  · exact h r2 h2 hdel

lemma deriveAll_deletedClean (rs : List AreaResult)
    (h : DeletedClean rs) : DeletedClean (deriveCountriesForAll rs) := by
  intro r2 h2 hdel
  unfold deriveCountriesForAll at h2
  obtain ⟨r0, hr0, heq⟩ := List.mem_map.mp h2
  by_cases hc : r0.area_type = "country"
  · rw [if_pos hc] at heq
    rw [← heq] at hdel ⊢
    exact h r0 hr0 hdel
  · rw [if_neg hc] at heq
    rw [← heq] at hdel ⊢
    exact h r0 hr0 hdel

lemma deriveAll_ids (rs : List AreaResult) :
    cacheIds (deriveCountriesForAll rs) = cacheIds rs := by
  unfold deriveCountriesForAll cacheIds
  rw [List.map_map]
  apply List.map_congr_left
  intro r _
  show ((if r.area_type = "country" then _ else _ : AreaResult)).area_id
    = r.area_id
  split <;> rfl

lemma strip_mem_src (rs : List AreaResult) (r2 : AreaResult)
    (h : r2 ∈ detectUrlAliasClashes rs) :
    ∃ r0 ∈ rs, r0.area_id = r2.area_id ∧ r0.is_deleted = r2.is_deleted := by
  have hm : stripIssues r2 ∈ (detectUrlAliasClashes rs).map stripIssues :=
    List.mem_map.mpr ⟨r2, h, rfl⟩
  rw [detect_strip] at hm
  obtain ⟨r0, hr0, heq⟩ := List.mem_map.mp hm
  refine ⟨r0, hr0, ?_, ?_⟩
  · have := congrArg (fun r => r.area_id) heq
    exact this
  · have := congrArg (fun r => r.is_deleted) heq
    exact this

lemma detect_deletedClean (rs : List AreaResult)
    (hnd : (cacheIds rs).Nodup) (hdc : DeletedClean rs) :
    DeletedClean (detectUrlAliasClashes rs) := by
  intro r2 hr2 hdel
  obtain ⟨r0, hr0, hid0, hdel0⟩ := strip_mem_src rs r2 hr2
  have hr0del : r0.is_deleted = true := by rw [hdel0, hdel]
  have hndd : (cacheIds (detectUrlAliasClashes rs)).Nodup := by
    rw [cacheIds_detect]
    exact hnd
  have hfindd := find?_of_mem_nodup _ r2 hndd hr2
  have hdet : detectUrlAliasClashes rs =
      addAllClashGroups (buildAliasMap (clearClashIssues rs))
        (clearClashIssues rs) := rfl
  have hbase : ({ r0 with issues := r0.issues.filter (fun i => i.rule_id ≠ "url-alias-clash") } : AreaResult) ∈ clearClashIssues rs := by
    unfold clearClashIssues
    exact List.mem_map.mpr ⟨r0, hr0, rfl⟩
  have hndc : (cacheIds (clearClashIssues rs)).Nodup := by
    rw [cacheIds_cleared]
    exact hnd
  have hfindc : (clearClashIssues rs).find? (fun r => r.area_id = r2.area_id) = some { r0 with issues := r0.issues.filter (fun i => i.rule_id ≠ "url-alias-clash") } := by
    rw [← hid0]
    exact find?_of_mem_nodup _ _ hndc hbase
  have hnone : ∀ g ∈ buildAliasMap (clearClashIssues rs),
      1 < g.2.length → r2.area_id ∉ g.2 := by
    intro g hg hgbig haid
    rcases g with ⟨v, ids⟩
    rw [bam_cleared] at hg
    have hidseq := ((buildAliasMap_mem rs v ids).mp hg).2
    rw [hidseq] at haid
    unfold matchingAliasIds at haid
    obtain ⟨r1, hr1, hid1⟩ := List.mem_map.mp haid
    have hm1 := List.mem_filter.mp hr1
    have heq : r1 = r0 := by
      apply List.inj_on_of_nodup_map hnd hm1.1 hr0
      rw [hid1, hid0]
    have : r1.is_deleted = false := by
      have := hm1.2
      simp only [Bool.and_eq_true, Bool.not_eq_true'] at this
      exact this.1
    rw [heq, hr0del] at this
    exact absurd this (by simp)
  have hmain := addAll_find_not (buildAliasMap (clearClashIssues rs))
    (clearClashIssues rs) r2.area_id hnone
  rw [← hdet, hfindd, hfindc] at hmain
  injection hmain with hmain
  have hiss := congrArg (fun r => r.issues) hmain
  dsimp only at hiss
  rw [hiss, hdc r0 hr0 hr0del]
  rfl

/-- C10: a soft-deleted cached area always has an empty issue list:
the entry update_area builds for a deleted area carries no issues, the
url-alias-clash pass never attaches an issue to a deleted entry (its
groups only contain non-deleted areas), the country-derivation pass never
touches issues, and therefore any sequence of cache operations starting
from the empty cache keeps every deleted entry issue-free. -/
theorem deleted_clean_spec (now : Int) :
    (∀ cidx aid a, (mkAreaEntry cidx now aid a).is_deleted = true →
      (mkAreaEntry cidx now aid a).issues = [])
    ∧ (∀ rs : List AreaResult, (cacheIds rs).Nodup → DeletedClean rs →
        DeletedClean (detectUrlAliasClashes rs))
    ∧ (∀ ops : List CacheOp,
        DeletedClean (ops.foldl (applyCacheOp now) [])) := by
  refine ⟨fun cidx aid a => mkAreaEntry_deleted cidx now aid a, detect_deletedClean, ?_⟩
  intro ops
  have aux : ∀ (l : List CacheOp) (rs : List AreaResult),
      (cacheIds rs).Nodup → DeletedClean rs →
      DeletedClean (l.foldl (applyCacheOp now) rs) := by
    intro l
    induction l with
    | nil => intro rs _ h; exact h
    | cons op t ih =>
      intro rs hnd hdc
      rw [List.foldl_cons]
      rcases op with ⟨cidx, aid, a⟩ | _ | _
      · exact ih _ (putEntry_nodup _ _ hnd)
          (updateArea_deletedClean cidx now rs aid a hdc)
      · have h1 : cacheIds (applyCacheOp now rs CacheOp.deriveAll)
            = cacheIds rs := deriveAll_ids rs
        exact ih _ (by rw [h1]; exact hnd) (deriveAll_deletedClean rs hdc)
      · have h1 : cacheIds (applyCacheOp now rs CacheOp.detectClashes)
            = cacheIds rs := cacheIds_detect rs
        exact ih _ (by rw [h1]; exact hnd) (detect_deletedClean rs hnd hdc)
  exact aux ops [] (by simp [cacheIds]) (by intro r h; exact absurd h (by simp))

/-- Witness for deleted_clean_spec: the clash pass on a cache holding one
deleted entry leaves it issue-free. -/
theorem deleted_clean_spec_witness :
    DeletedClean (detectUrlAliasClashes
      [{ aliasEntry "d1" "D1" with is_deleted := true }]) :=
  (deleted_clean_spec 0).2.1 [{ aliasEntry "d1" "D1" with is_deleted := true }]
    (by decide)
    (by
      intro r h hdel
      rcases List.mem_singleton.mp h with rfl
      rfl)
